import Mathlib

/-!
Verification development for the WhatsApp chat-archive import backend.

The definitions below are a shallow embedding of the JavaScript sources:

* `src/src/routes/upload.js` — the preview/confirm upload flow
  (preview store, identity-resolution helpers, the confirm import
  transaction) and the legacy single-step upload's auto matcher;
* the chats route file (`src/unnamed/part_000`) — the chat merge
  endpoint `POST /api/chats/merge`.

JavaScript strings are modelled as `String`; values that can be
`null`/`undefined` are modelled as `Option`; JS string truthiness
(`!s` is true exactly for the empty string, `null` and `undefined`)
is modelled explicitly.  Timestamps are modelled as `Int` (the code
only ever compares them through `new Date(...)` ordering).  The
MySQL tables are modelled as lists of rows carried in a `DB`
structure; `INSERT` with a duplicate-key catch is modelled as an
insert-or-skip on the messages list.

String operations are re-implemented over character lists (ASCII
case folding, as the code only feeds chat names and filenames to
them) so that concrete runs reduce inside the kernel.
-/

namespace ChatImport

/-- ASCII lower-casing of a string (models `String.prototype.toLowerCase`
for the ASCII names this code handles). -/
def strLower (s : String) : String := ⟨s.data.map Char.toLower⟩

/-- Whitespace trimming at both ends (models `String.prototype.trim`). -/
def strTrim (s : String) : String :=
  ⟨((s.data.dropWhile Char.isWhitespace).reverse.dropWhile Char.isWhitespace).reverse⟩

/-- First `n` characters of a string (models `String.prototype.slice(0, n)`
and the MySQL `content(255)` key part). -/
def strTake (s : String) (n : Nat) : String := ⟨s.data.take n⟩

/-- Suffix test (models `String.prototype.endsWith`). -/
def strEndsWith (s suffix : String) : Bool := List.isSuffixOf suffix.data s.data

/-- Substring containment (models `String.prototype.includes`). -/
def strContainsSub (hay needle : String) : Bool :=
  (List.range (hay.data.length + 1)).any fun i => List.isPrefixOf needle.data (hay.data.drop i)

/-- JS truthiness of a possibly-`null` string: `null`, `undefined` and the
empty string are falsy, every other string is truthy. -/
def jsTruthy : Option String → Bool
  | none => false
  | some s => !s.isEmpty

/-- Collapse of `null`-ish strings to SQL `NULL` (models the `x || null`
pattern used when binding optional columns). -/
def jsOrNull : Option String → Option String
  | none => none
  | some s => if s.isEmpty then none else some s

/-- The set `GENERIC_NAMES` of upload.js (line 42): placeholder chat names
that indicate the name was not properly parsed. -/
def GENERIC_NAMES : List String := ["chat", "whatsapp chat", "group", "_chat"]

/-- Predicate `isGenericName` of upload.js (lines 44-47): a missing or empty name is
generic, otherwise membership of the trimmed lower-cased name in
`GENERIC_NAMES` decides. -/
def isGenericName : Option String → Bool
  | none => true
  | some s => if s.isEmpty then true else GENERIC_NAMES.contains (strLower (strTrim s))

/-- Helper `normalizeName` of upload.js (lines 36-39): lower-case, then keep only
ASCII letters, digits, dot and hyphen (the regex `[^a-z0-9.\-.]+` removes
everything else). -/
def normalizeName (s : String) : String :=
  ⟨(strLower s).data.filter fun c =>
    (('a' ≤ c ∧ c ≤ 'z') ∨ c.isDigit ∨ c = '.' ∨ c = '-' : Bool)⟩

/-- Function `participantOverlap` of upload.js (lines 50-59): the overlap ratio
`|A ∩ B| / min |A| |B|` of two participant sets, with 1 for two empty sets
and 0 when exactly one of them is empty. -/
def participantOverlap (setA setB : Finset String) : ℚ :=
  if setA.card = 0 ∧ setB.card = 0 then 1
  else if setA.card = 0 ∨ setB.card = 0 then 0
  else ((setA ∩ setB).card : ℚ) / (min setA.card setB.card : ℚ)

/-- One row of the `chats` table together with its participant set, as
loaded by `findMatchingSuggestions` (upload.js lines 65-76). -/
structure ChatRow where
  id : Nat
  name : String
  participants : Finset String
deriving DecidableEq

/-- The match reason labels produced by `findMatchingSuggestions`
(upload.js lines 80-91); the overlap branches carry the percentage that
the code interpolates into the reason string. -/
inductive MatchReason
  | exactName
  | byOverlap (pct : ℤ)
  | genericOverlap (pct : ℤ)
  | noMatch
deriving DecidableEq

/-- The exact-name comparison of `findMatchingSuggestions` (upload.js
line 77): both names must be truthy and equal after trimming and
lower-casing.  Note that this path has no generic-placeholder guard. -/
def nameMatchBool (nameGuess : Option String) (chatName : String) : Bool :=
  jsTruthy nameGuess && !chatName.isEmpty &&
    (strLower (strTrim (nameGuess.getD "")) == strLower (strTrim chatName))

/-- The per-chat match score and reason of `findMatchingSuggestions`
(upload.js lines 79-91): 100 for an exact name match, `round(overlap*80)`
for a participant overlap of at least one half, `round(overlap*50)` for a
generic-named chat with nonzero overlap, otherwise 0. -/
def chatMatch (nameGuess : Option String) (tParts : Finset String) (c : ChatRow) :
    ℤ × MatchReason :=
  let overlap := participantOverlap tParts c.participants
  if nameMatchBool nameGuess c.name then (100, .exactName)
  else if (1 : ℚ)/2 ≤ overlap then (round (overlap * 80), .byOverlap (round (overlap * 100)))
  else if isGenericName (some c.name) ∧ 0 < overlap then
    (round (overlap * 50), .genericOverlap (round (overlap * 100)))
  else (0, .noMatch)

/-- Step 1 of `autoFindOrCreateChat` (upload.js lines 537-546): the
exact-name match of the legacy auto matcher.  Unlike the suggestion path,
it is guarded by `nameGuess && !isGenericName(nameGuess)`. -/
def autoNameStep (nameGuess : Option String) (chats : List ChatRow) : Option Nat :=
  if jsTruthy nameGuess ∧ isGenericName nameGuess = false then
    (chats.find? fun c =>
      !c.name.isEmpty && (strLower (strTrim c.name) == strLower (strTrim (nameGuess.getD "")))).map
      (·.id)
  else none

/-- Step 2 of `autoFindOrCreateChat` (upload.js lines 549-558): scan the
chats in order keeping the strictly best overlap among those of at least
one half. -/
def autoOverlapStep (tParts : Finset String) (chats : List ChatRow) : Option Nat :=
  (chats.foldl (fun (acc : ℚ × Option Nat) c =>
    let ov := participantOverlap tParts c.participants
    if (1 : ℚ)/2 ≤ ov ∧ acc.1 < ov then (ov, some c.id) else acc) ((0 : ℚ), none)).2

/-- Step 3 of `autoFindOrCreateChat` (upload.js lines 561-571): the first
generic-named chat with any nonzero overlap. -/
def autoGenericStep (tParts : Finset String) (chats : List ChatRow) : Option Nat :=
  (chats.find? fun c =>
    isGenericName (some c.name) && decide (0 < participantOverlap tParts c.participants)).map (·.id)

/-- The resolution decision of `autoFindOrCreateChat` (upload.js lines
526-571): exact name, then best participant overlap, then generic-name
fallback; `none` means a new chat is created. -/
def autoFindChat (nameGuess : Option String) (tParts : Finset String)
    (chats : List ChatRow) : Option Nat :=
  match autoNameStep nameGuess chats with
  | some i => some i
  | none =>
    match autoOverlapStep tParts chats with
    | some i => some i
    | none => autoGenericStep tParts chats

/-- One row of the `messages` table (chat_id, author, content, timestamp,
type, media_path). -/
structure StoredMessage where
  chatId : Nat
  author : Option String
  content : String
  timestamp : Option Int
  type : String
  mediaPath : Option String
deriving DecidableEq, Repr

/-- One row of the `chats` table (id, user_id, name). -/
structure ChatRowDB where
  id : Nat
  userId : Nat
  name : String
deriving DecidableEq, Repr

/-- The relational storage: chats, the `(chat_id, name)` participant
relation, messages, and the auto-increment counter for chat ids. -/
structure DB where
  chats : List ChatRowDB
  chatParticipants : List (Nat × String)
  messages : List StoredMessage
  nextChatId : Nat
deriving DecidableEq, Repr

/-- Modelled from the spec: the uniqueness invariant of the `messages`
table.  The schema itself lives in `src/db.js`, which is not among the
provided sources; §3 of the specification states the de-duplication key
`(chatId, author, timestamp, content-prefix)`, and the merge route's
comment names the unique key `(chat_id, author, timestamp, content(255))`.
Two rows conflict when all four key components are equal (in particular
two rows that both lack a timestamp and agree otherwise conflict). -/
def dupKeyMatches (m : StoredMessage) (chatId : Nat) (author : Option String)
    (timestamp : Option Int) (content : String) : Bool :=
  m.chatId == chatId && m.author == author && m.timestamp == timestamp &&
    (strTake m.content 255 == strTake content 255)

/-- A message `INSERT` under the unique key, with the `ER_DUP_ENTRY`
catch of upload.js lines 348-361: on conflict the row is not stored and
the second component is `false`. -/
def insertMessage (db : DB) (chatId : Nat) (author : Option String) (content : String)
    (timestamp : Option Int) (type : String) (mediaPath : Option String) : DB × Bool :=
  if db.messages.any fun m => dupKeyMatches m chatId author timestamp content then
    (db, false)
  else
    ({ db with messages :=
        db.messages ++ [⟨chatId, author, content, timestamp, type, mediaPath⟩] }, true)

/-- One parsed transcript message as produced by the external collator
`parseWhatsAppText` (treated as an external pure function; §6 of the
spec). -/
structure RawMessage where
  author : Option String
  content : String
  timestamp : Option Int
  type : String
  filename : Option String
deriving DecidableEq, Repr

/-- A parsed transcript: name guess, participant set (in JS `Set`
insertion order) and message sequence. -/
structure ParsedTranscript where
  nameGuess : Option String
  participants : List String
  messages : List RawMessage
deriving DecidableEq, Repr

/-- One media entry of the ZIP's `filesMap` (zip.js `extractZipMeta`):
the original entry path and an opaque content handle. -/
structure MediaFile where
  path : String
  data : String
deriving DecidableEq, Repr

/-- The bundle contents that `loadZip`/`extractZipMeta` recover from a
staged ZIP file: the parsed transcripts (text entries fed through the
external collator) and the media map keyed by lower-cased basename. -/
structure Bundle where
  transcripts : List ParsedTranscript
  filesMap : List (String × MediaFile)
deriving DecidableEq, Repr

/-- Temporary and media file storage outside the database transaction:
staged ZIP bundles by temp path, and saved media files by path. -/
structure FileSys where
  tmpFiles : List (String × Bundle)
  mediaFiles : List (String × String)
deriving DecidableEq, Repr

/-- Read a staged bundle (models `loadZip` + `extractZipMeta` on the
stored temp file). -/
def lookupTmp (f : FileSys) (p : String) : Option Bundle :=
  (f.tmpFiles.find? fun kv => kv.1 == p).map (·.2)

/-- Delete a staged bundle file (models `fs.unlink`). -/
def unlinkTmp (f : FileSys) (p : String) : FileSys :=
  { f with tmpFiles := f.tmpFiles.filter fun kv => kv.1 != p }

/-- Write a media file, overwriting any previous content at that path
(models `saveBuffer`). -/
def writeMedia (f : FileSys) (p : String) (d : String) : FileSys :=
  { f with mediaFiles := (f.mediaFiles.filter fun kv => kv.1 != p) ++ [(p, d)] }

/-- The aggregated statistics object of the confirm/upload endpoints. -/
structure Stats where
  addedChats : Nat
  updatedChats : Nat
  addedMessages : Nat
  skippedMessages : Nat
  savedMedia : Nat
deriving DecidableEq, Repr

def Stats.zero : Stats := ⟨0, 0, 0, 0, 0⟩

/-- The character class kept by `safeName` (file.js): word characters,
dot, hyphen and space; every maximal run of other characters becomes one
underscore. -/
def safeChar (c : Char) : Bool :=
  (('a' ≤ c ∧ c ≤ 'z') ∨ ('A' ≤ c ∧ c ≤ 'Z') ∨ c.isDigit ∨ c = '_' ∨ c = '.' ∨
    c = '-' ∨ c = ' ' : Bool)

/-- Run collapsing for `safeName`: the regex `[^\w.\- ]+` replaces each
maximal run of disallowed characters by a single underscore.  The flag
records whether the previous character was part of a disallowed run. -/
def collapseRunsAux : Bool → List Char → List Char
  | _, [] => []
  | prevBad, c :: rest =>
    if safeChar c then c :: collapseRunsAux false rest
    else if prevBad then collapseRunsAux true rest
    else '_' :: collapseRunsAux true rest

def collapseRuns (l : List Char) : List Char := collapseRunsAux false l

/-- Sanitizer `safeName` of file.js: sanitize and cap at 180 characters. -/
def safeName (s : String) : String := ⟨(collapseRuns s.data).take 180⟩

/-- Helper `publicPath` of file.js applied as in upload.js line 340: the public
reference path of a saved media file. -/
def publicPath (uid cid savedName : String) : String :=
  "/uploads/" ++ uid ++ "/" ++ cid ++ "/" ++ savedName

/-- The media directory for a chat (upload.js lines 280-281, with the
default `UPLOAD_ROOT` of `uploads`). -/
def chatDirPath (uid cid : Nat) : String :=
  "uploads/" ++ toString uid ++ "/" ++ toString cid

/-- The three-tier media lookup of upload.js lines 311-333: exact
lower-cased key, then a scan comparing the raw key as suffix and the
normalized forms by equality or containment in either direction.  Returns
the matched map key together with the entry. -/
def findMediaHit (filesMap : List (String × MediaFile)) (rawName : String) :
    Option (String × MediaFile) :=
  let targetNorm := normalizeName rawName
  let exactKey := strLower rawName
  match (filesMap.find? fun kv => kv.1 == exactKey).map (·.2) with
  | some fd => some (exactKey, fd)
  | none =>
    filesMap.find? fun kv =>
      strEndsWith kv.1 exactKey || (normalizeName kv.1 == targetNorm) ||
        strContainsSub (normalizeName kv.1) targetNorm ||
        strContainsSub targetNorm (normalizeName kv.1)

/-- The media half of one message iteration (upload.js lines 303-346):
look the referenced filename up in the media map and, on a hit, save the
file and produce its public path. -/
def mediaResolve (uid cid : Nat) (filesMap : List (String × MediaFile))
    (fsys : FileSys) (stats : Stats) (m : RawMessage) :
    FileSys × Option String × Stats :=
  match m.filename with
  | none => (fsys, none, stats)
  | some rawName =>
    if rawName.isEmpty then (fsys, none, stats)
    else
      match findMediaHit filesMap rawName with
      | none => (fsys, none, stats)
      | some (key, fd) =>
        let savedName := safeName key
        let outPath := chatDirPath uid cid ++ "/" ++ savedName
        (writeMedia fsys outPath fd.data,
         some (publicPath (toString uid) (toString cid) savedName),
         { stats with savedMedia := stats.savedMedia + 1 })

/-- Processing of one retained message (upload.js lines 302-362): resolve
and save its media file if any, then insert the message row, counting a
duplicate-key conflict as skipped. -/
def processOneMessage (uid cid : Nat) (filesMap : List (String × MediaFile))
    (db : DB) (fsys : FileSys) (stats : Stats) (m : RawMessage) :
    DB × FileSys × Stats :=
  let ms := mediaResolve uid cid filesMap fsys stats m
  let ins := insertMessage db cid (jsOrNull m.author) m.content m.timestamp m.type ms.2.1
  if ins.2 then
    (ins.1, ms.1, { ms.2.2 with addedMessages := ms.2.2.addedMessages + 1 })
  else
    (ins.1, ms.1, { ms.2.2 with skippedMessages := ms.2.2.skippedMessages + 1 })

/-- The message loop of the confirm endpoint (upload.js lines 302-362). -/
def processMessages (uid cid : Nat) (filesMap : List (String × MediaFile))
    (msgs : List RawMessage) (db : DB) (fsys : FileSys) (stats : Stats) :
    DB × FileSys × Stats :=
  match msgs with
  | [] => (db, fsys, stats)
  | m :: rest =>
    let step := processOneMessage uid cid filesMap db fsys stats m
    processMessages uid cid filesMap rest step.1 step.2.1 step.2.2

/-- The de-duplication cutoff query `SELECT MAX(timestamp) ... WHERE
chat_id = ?` (upload.js lines 287-291); SQL `MAX` ignores `NULL` values
and returns `NULL` on an empty set. -/
def maxTimestampStep (acc : Option Int) (t : Option Int) : Option Int :=
  match acc, t with
  | none, t => t
  | some a, none => some a
  | some a, some b => some (max a b)

def chatMaxTimestamp (db : DB) (cid : Nat) : Option Int :=
  ((db.messages.filter fun m => m.chatId == cid).map (·.timestamp)).foldl maxTimestampStep none

/-- The message filter of upload.js lines 295-299: keep a message when it
has no timestamp, when there is no cutoff, or when its timestamp is
strictly after the cutoff. -/
def keepMessage (lastMessageTime : Option Int) (m : RawMessage) : Bool :=
  match m.timestamp with
  | none => true
  | some t =>
    match lastMessageTime with
    | none => true
    | some l => decide (l < t)

/-- Union of the parsed participants into a chat's participant rows
(upload.js lines 256-262: insert each participant absent from the
existing set). -/
def addParticipants (ps : List (Nat × String)) (cid : Nat) (newPs : List String) :
    List (Nat × String) :=
  newPs.foldl (fun acc p => if (cid, p) ∈ acc then acc else acc ++ [(cid, p)]) ps

/-- The single error that aborts the confirm transaction: the
caller-specified target chat does not exist for this user (upload.js
lines 239-244). -/
inductive ConfirmErr
  | chatNotFound (cid : Nat)
deriving DecidableEq, Repr

/-- The chat-name update of upload.js lines 249-253: replace the stored
name when the import carries a truthy non-generic guess and the stored
name is generic or differs. -/
def applyNameUpdate (db : DB) (tid : Nat) (nameGuess : Option String)
    (existingName : String) : DB :=
  if jsTruthy nameGuess ∧ isGenericName nameGuess = false ∧
      (isGenericName (some existingName) = true ∨ existingName ≠ nameGuess.getD "") then
    { db with chats := db.chats.map fun c =>
        if c.id = tid then { c with name := nameGuess.getD "" } else c }
  else db

/-- The participant sync of upload.js lines 256-262. -/
def applyParticipants (db : DB) (tid : Nat) (ps : List String) : DB :=
  { db with chatParticipants := addParticipants db.chatParticipants tid ps }

/-- One iteration of the confirm loop (upload.js lines 228-366): resolve
or create the target chat, update its name and participants, filter the
parsed messages by the timestamp cutoff, process them, and count the
filtered-out ones as skipped.  A failing target lookup aborts; the
`FileSys` at the abort point is carried in the error because media writes
happen outside the transaction. -/
def confirmTranscript (uid : Nat) (targetChatId : Option Nat)
    (filesMap : List (String × MediaFile)) (parsed : ParsedTranscript)
    (db : DB) (fsys : FileSys) (stats : Stats) :
    Except (ConfirmErr × FileSys) (DB × FileSys × Stats) :=
  match targetChatId with
  | some tid =>
    match db.chats.find? fun c => c.id == tid && c.userId == uid with
    | none => .error (.chatNotFound tid, fsys)
    | some row =>
      let db2 : DB :=
        applyParticipants (applyNameUpdate db tid parsed.nameGuess row.name) tid
          parsed.participants
      let stats1 := { stats with updatedChats := stats.updatedChats + 1 }
      let lastTime := chatMaxTimestamp db2 tid
      let newMsgs := parsed.messages.filter (keepMessage lastTime)
      let res := processMessages uid tid filesMap newMsgs db2 fsys stats1
      .ok (res.1, res.2.1,
        { res.2.2 with skippedMessages :=
            res.2.2.skippedMessages + (parsed.messages.length - newMsgs.length) })
  | none =>
    let cid := db.nextChatId
    let newName :=
      match parsed.nameGuess with
      | some s => if s.isEmpty then "Chat" else s
      | none => "Chat"
    let db1 : DB :=
      { db with chats := db.chats ++ [⟨cid, uid, newName⟩], nextChatId := cid + 1 }
    let db2 : DB :=
      { db1 with chatParticipants :=
          db1.chatParticipants ++ parsed.participants.map fun p => (cid, p) }
    let stats1 := { stats with addedChats := stats.addedChats + 1 }
    let newMsgs := parsed.messages.filter (keepMessage none)
    let res := processMessages uid cid filesMap newMsgs db2 fsys stats1
    .ok (res.1, res.2.1,
      { res.2.2 with skippedMessages :=
          res.2.2.skippedMessages + (parsed.messages.length - newMsgs.length) })

/-- The transaction body of the confirm endpoint: the loop over all
transcripts of the bundle (upload.js lines 228-366). -/
def confirmLoop (uid : Nat) (targetChatId : Option Nat)
    (filesMap : List (String × MediaFile)) (transcripts : List ParsedTranscript)
    (db : DB) (fsys : FileSys) (stats : Stats) :
    Except (ConfirmErr × FileSys) (DB × FileSys × Stats) :=
  match transcripts with
  | [] => .ok (db, fsys, stats)
  | p :: rest =>
    match confirmTranscript uid targetChatId filesMap p db fsys stats with
    | .error e => .error e
    | .ok (db1, fsys1, stats1) => confirmLoop uid targetChatId filesMap rest db1 fsys1 stats1

/-- One entry of the in-memory preview store (upload.js lines 15-18 and
164-171).  `mediaFileCount` and the original file name do not influence
control flow and are omitted. -/
structure Preview where
  userId : Nat
  tempPath : String
  createdAt : Int
deriving DecidableEq, Repr

/-- Constant `PREVIEW_TTL_MS` of upload.js line 18: 15 minutes. -/
def PREVIEW_TTL_MS : Int := 15 * 60 * 1000

/-- The process-wide server state touched by the confirm route: the
preview map, the database, and the file system. -/
structure ServerState where
  previews : List (String × Preview)
  db : DB
  fsys : FileSys
deriving DecidableEq, Repr

/-- The outcome of the background sweep (upload.js lines 21-31): every
preview past the TTL is removed and its temp file unlinked. -/
def sweepOnce (previews : List (String × Preview)) (fsys : FileSys) (now : Int) :
    List (String × Preview) × FileSys :=
  ((previews.filter fun kv => !decide (PREVIEW_TTL_MS < now - kv.2.createdAt)),
   (previews.filter fun kv => decide (PREVIEW_TTL_MS < now - kv.2.createdAt)).foldl
     (fun f kv => unlinkTmp f kv.2.tempPath) fsys)

/-- The HTTP-visible outcomes of `POST /api/upload/confirm`. -/
inductive RouteResult
  | badRequest
  | notFoundSession
  | forbidden
  | expired
  | chatNotFound (cid : Nat)
  | serverError
  | ok (stats : Stats)
deriving DecidableEq, Repr

/-- The synchronous precheck phase of the confirm route (upload.js lines
198-213), up to the first `await` of the import itself: look up the
preview, check ownership, then expiry (deleting the session and its temp
file when expired).  `proceed` carries the preview for the continuation
and leaves the state untouched. -/
inductive PrecheckOutcome
  | stop (r : RouteResult)
  | proceed (p : Preview)
deriving DecidableEq, Repr

def confirmPrecheck (st : ServerState) (uid : Nat) (now : Int)
    (previewId : Option String) : ServerState × PrecheckOutcome :=
  match previewId with
  | none => (st, .stop .badRequest)
  | some pid =>
    match (st.previews.find? fun kv => kv.1 == pid).map (·.2) with
    | none => (st, .stop .notFoundSession)
    | some preview =>
      if preview.userId ≠ uid then (st, .stop .forbidden)
      else if PREVIEW_TTL_MS < now - preview.createdAt then
        ({ st with previews := st.previews.filter fun kv => kv.1 != pid,
                   fsys := unlinkTmp st.fsys preview.tempPath }, .stop .expired)
      else (st, .proceed preview)

/-- The continuation of the confirm route after the staged ZIP has been
re-read (upload.js lines 215-386): run the transaction over all
transcripts, roll the database back on a failed target lookup (the 404
path returns without cleanup), and on success unlink the temp file and
drop the preview entry. -/
def confirmResume (st : ServerState) (uid : Nat) (pid : String) (preview : Preview)
    (bundle : Bundle) (targetChatId : Option Nat) : ServerState × RouteResult :=
  match confirmLoop uid targetChatId bundle.filesMap bundle.transcripts
      st.db st.fsys Stats.zero with
  | .error (.chatNotFound cid, fsys1) =>
    ({ st with fsys := fsys1 }, .chatNotFound cid)
  | .ok (db1, fsys1, stats) =>
    ({ previews := st.previews.filter fun kv => kv.1 != pid,
       db := db1,
       fsys := unlinkTmp fsys1 preview.tempPath }, .ok stats)

/-- The full `POST /api/upload/confirm` handler run without interleaving:
precheck, re-read of the staged bundle (a missing temp file surfaces as a
caught exception, hence a 500), then the transactional import and
cleanup. -/
def uploadConfirm (st : ServerState) (uid : Nat) (now : Int)
    (previewId : Option String) (targetChatId : Option Nat) :
    ServerState × RouteResult :=
  match confirmPrecheck st uid now previewId with
  | (st1, .stop r) => (st1, r)
  | (st1, .proceed preview) =>
    match previewId with
    | none => (st1, .serverError)
    | some pid =>
      match lookupTmp st1.fsys preview.tempPath with
      | none => (st1, .serverError)
      | some bundle => confirmResume st1 uid pid preview bundle targetChatId

/-- JS `[...new Set(xs)]`: de-duplication keeping first occurrences. -/
def jsSetDedup (l : List Nat) : List Nat :=
  l.foldl (fun acc x => if x ∈ acc then acc else acc ++ [x]) []

/-- The number of stored messages of a chat (`SELECT COUNT(*) ... WHERE
chat_id = ?`). -/
def msgCount (db : DB) (cid : Nat) : Nat :=
  (db.messages.filter fun m => m.chatId == cid).length

/-- The generic-name set of the merge route (part_000 line 90), which
also contains the empty string. -/
def mergeGenericNames : List String := ["chat", "whatsapp chat", "group", "_chat", ""]

/-- The merge route's name usability test (part_000 lines 92-97):
`c.name` truthy and not in its generic set after trimming and
lower-casing. -/
def mergeNameUsable (name : String) : Bool :=
  !name.isEmpty && !(mergeGenericNames.contains (strLower (strTrim name)))

/-- Deletion `DELETE FROM chats WHERE id = ?` with the storage-level cascade.
Modelled from the spec: the cascade itself is declared in the schema of
`src/db.js`, which is not among the provided sources; §4.5 of the
specification and the comment at part_000 line 147 state that deleting a
chat cascade-deletes its messages and participant rows. -/
def deleteChatCascade (db : DB) (cid : Nat) : DB :=
  { db with chats := db.chats.filter fun c => c.id != cid,
            chatParticipants := db.chatParticipants.filter fun pr => pr.1 != cid,
            messages := db.messages.filter fun m => m.chatId != cid }

/-- Re-insertion of one source chat's messages into the merge target
(part_000 lines 124-145), counting duplicate-key conflicts as skipped. -/
def mergeInsertAll (db : DB) (targetId : Nat) (ms : List StoredMessage)
    (moved skipped : Nat) : DB × Nat × Nat :=
  match ms with
  | [] => (db, moved, skipped)
  | m :: rest =>
    let r := insertMessage db targetId m.author m.content m.timestamp m.type m.mediaPath
    if r.2 then mergeInsertAll r.1 targetId rest (moved + 1) skipped
    else mergeInsertAll r.1 targetId rest moved (skipped + 1)

/-- The move loop of the merge route (part_000 lines 124-149): for each
source chat in order, copy its messages into the target under the unique
key, then delete the source chat with its cascade. -/
def mergeMoveLoop (db : DB) (targetId : Nat) (srcs : List Nat)
    (moved skipped : Nat) : DB × Nat × Nat :=
  match srcs with
  | [] => (db, moved, skipped)
  | s :: rest =>
    let srcMsgs := db.messages.filter fun m => m.chatId == s
    let r := mergeInsertAll db targetId srcMsgs moved skipped
    let db1 := deleteChatCascade r.1 s
    mergeMoveLoop db1 targetId rest r.2.1 r.2.2

/-- Participant union into the merge target (part_000 lines 103-115). -/
def mergeParticipants (db : DB) (targetId : Nat) (srcs : List Nat) : DB :=
  srcs.foldl (fun d s =>
    let srcNames := (d.chatParticipants.filter fun pr => pr.1 == s).map (·.2)
    { d with chatParticipants := addParticipants d.chatParticipants targetId srcNames }) db

/-- The owned-candidates query of the merge route (part_000 lines 66-70):
`SELECT id, name FROM chats WHERE user_id = ? AND id IN (...)`.  The rows
come back in the table's storage order, not in the order the ids were
supplied. -/
def mergeOwnedChats (db : DB) (uid : Nat) (chatIds : List Nat) : List ChatRowDB :=
  db.chats.filter fun c => c.userId == uid && chatIds.contains c.id

/-- The target-name update of the merge route (part_000 lines 98-101):
when a usable candidate name was found, write it onto the target chat. -/
def applyBestName (db : DB) (targetId : Nat) (bestName : Option String) : DB :=
  match bestName with
  | some n =>
    { db with chats := db.chats.map fun c =>
        if c.id = targetId then { c with name := n } else c }
  | none => db

/-- The outcome of `POST /api/chats/merge`. -/
inductive MergeOutcome
  | badRequest
  | notFoundChats
  | ok (targetId : Nat) (movedMessages skippedDuplicates : Nat) (deletedChats : List Nat)
deriving DecidableEq, Repr

/-- Route `POST /api/chats/merge` (part_000 lines 51-182): validate ownership
of the de-duplicated id list, pick the target by greatest message count
(the stable sort keeps ties in supplied order), pick the first usable
name in the candidate query's row order, union participants, then move
messages and delete the source chats.  On a validation failure the
transaction rolls back and the database is returned unchanged. -/
def mergeChats (db : DB) (uid : Nat) (rawIds : List Nat) : DB × MergeOutcome :=
  let chatIds := jsSetDedup (rawIds.filter fun i => i != 0)
  if chatIds.length < 2 then (db, .badRequest)
  else
    let ownedChats := mergeOwnedChats db uid chatIds
    if ownedChats.length ≠ chatIds.length then (db, .notFoundChats)
    else
      let chatMsgCounts := chatIds.map fun cid => (cid, msgCount db cid)
      let sorted := List.insertionSort (fun a b : Nat × Nat => b.2 ≤ a.2) chatMsgCounts
      let targetId := (sorted.headD (0, 0)).1
      let sourceIds := chatIds.filter fun i => i != targetId
      let db1 : DB := applyBestName db targetId
        ((ownedChats.find? fun c => mergeNameUsable c.name).map (·.name))
      let db2 := mergeParticipants db1 targetId sourceIds
      let r := mergeMoveLoop db2 targetId sourceIds 0 0
      (r.1, .ok targetId r.2.1 r.2.2 sourceIds)

/-! ### Specification-side helpers and concrete instances

`firstMaxSel` is a specification-side selector used to characterise the
head of the merge route's stable sort; `claimFirstSuppliedName` renders
the specification's wording for the merge name choice (first non-generic
name in caller-supplied order) so it can be compared with the code's
choice.  The remaining definitions are concrete states used by witnesses
and counterexamples. -/

/-- Specification-side: the first element of maximal second component
(later elements replace the current choice only when strictly greater). -/
def firstMaxSel : List (Nat × Nat) → Option (Nat × Nat)
  | [] => none
  | x :: xs =>
    some (match firstMaxSel xs with
      | none => x
      | some m => if m.2 ≤ x.2 then x else m)

/-- Specification-side rendering of the claim "the first non-generic name
among the candidate chats, checked in the order the chat ids were
supplied by the caller". -/
def claimFirstSuppliedName (db : DB) (ids : List Nat) : Option String :=
  ((ids.filterMap fun i => db.chats.find? fun c => c.id == i).find? fun c =>
    mergeNameUsable c.name).map (·.name)

/-- Whether a route outcome is the success response. -/
def RouteResult.isOk : RouteResult → Bool
  | .ok _ => true
  | _ => false

/-- Concrete transcript used by the re-run witness: one timestamped and
one untimestamped message. -/
def rerunParsed : ParsedTranscript :=
  ⟨none, ["alice"],
   [⟨some "alice", "hi", some 5, "text", none⟩,
    ⟨some "alice", "note", none, "text", none⟩]⟩

def rerunDB : DB := ⟨[⟨1, 7, "Fam"⟩], [], [], 2⟩

def rerunFS : FileSys := ⟨[], []⟩

/-- The state after the first confirmed import of `rerunParsed`. -/
def rerunAfter : DB × FileSys × Stats :=
  (confirmTranscript 7 (some 1) [] rerunParsed rerunDB rerunFS Stats.zero).toOption.getD
    (rerunDB, rerunFS, Stats.zero)

/-- Concrete server state with one fresh preview session holding a staged
one-transcript bundle. -/
def demoPreview : Preview := ⟨7, "tmp/a.zip", 0⟩

def demoBundle : Bundle :=
  ⟨[⟨some "Fam", ["alice"], [⟨some "alice", "hi", some 5, "text", none⟩]⟩], []⟩

def demoState : ServerState :=
  ⟨[("p", demoPreview)], ⟨[], [], [], 1⟩, ⟨[("tmp/a.zip", demoBundle)], []⟩⟩

/-- Concrete server state whose single preview session is already past
the TTL at time `now = 2000000`. -/
def staleState : ServerState :=
  ⟨[("p", demoPreview)], ⟨[], [], [], 1⟩, ⟨[("tmp/a.zip", demoBundle)], []⟩⟩

/-- Two confirms of the same session id interleaved at the `await`
points of the handler: both pass the synchronous precheck, both re-read
the staged ZIP, then both run the import transaction and the cleanup.
This is an admissible event-loop schedule of the code, which deletes the
session only in the cleanup. -/
def interleavedConfirms : RouteResult × RouteResult :=
  match confirmPrecheck demoState 7 0 (some "p") with
  | (st1, .proceed p1) =>
    match confirmPrecheck st1 7 0 (some "p") with
    | (st2, .proceed p2) =>
      match lookupTmp st2.fsys p1.tempPath, lookupTmp st2.fsys p2.tempPath with
      | some b1, some b2 =>
        let r1 := confirmResume st2 7 "p" p1 b1 none
        let r2 := confirmResume r1.1 7 "p" p2 b2 none
        (r1.2, r2.2)
      | _, _ => (.serverError, .serverError)
    | (_, .stop r) => (r, r)
  | (_, .stop r) => (r, r)

/-- A full, uninterleaved confirm of the demo session. -/
def demoConfirmRun : ServerState × RouteResult := uploadConfirm demoState 7 0 (some "p") none

/-- The statistics of the successful demo confirm. -/
def demoConfirmStats : Stats :=
  match demoConfirmRun.2 with
  | .ok s => s
  | _ => Stats.zero

/-- Two chats of one owner, table order id 1 then id 2, both named
non-generically and without messages; used against the merge name-order
claim with supplied order `[2, 1]`. -/
def twoChatDB : DB := ⟨[⟨1, 7, "Alpha"⟩, ⟨2, 7, "Beta"⟩], [], [], 3⟩

/-- Three chats with 1, 2 and 0 messages; used by the merge witness. -/
def threeChatDB : DB :=
  ⟨[⟨1, 7, "One"⟩, ⟨2, 7, "Two"⟩, ⟨3, 7, "Three"⟩], [],
   [⟨1, some "a", "m1", some 1, "text", none⟩,
    ⟨2, some "a", "m2", some 2, "text", none⟩,
    ⟨2, some "a", "m1", some 1, "text", none⟩], 4⟩

/-- The merge of the three demo chats, supplied in order `[1, 2, 3]`. -/
def mergeDemoRun : DB × MergeOutcome := mergeChats threeChatDB 7 [1, 2, 3]

/-- The merge of the two equally-sized demo chats, supplied in order
`[2, 1]`. -/
def nameDemoRun : DB × MergeOutcome := mergeChats twoChatDB 7 [2, 1]

/-! ## Theorems -/

theorem participantOverlap_comm (A B : Finset String) :
    participantOverlap A B = participantOverlap B A := by
  unfold participantOverlap
  rcases eq_or_ne A.card 0 with hA | hA <;> rcases eq_or_ne B.card 0 with hB | hB <;>
    simp [hA, hB, Finset.inter_comm, min_comm]

theorem participantOverlap_nonneg (A B : Finset String) : 0 ≤ participantOverlap A B := by
  unfold participantOverlap
  split
  · norm_num
  split
  · norm_num
  · positivity

theorem participantOverlap_le_one (A B : Finset String) : participantOverlap A B ≤ 1 := by
  unfold participantOverlap
  split
  · norm_num
  split
  · norm_num
  · rename_i h1 h2
    have hA : 0 < A.card := Nat.pos_of_ne_zero fun h => h2 (Or.inl h)
    have hB : 0 < B.card := Nat.pos_of_ne_zero fun h => h2 (Or.inr h)
    rw [div_le_one (by positivity)]
    have hcard : (A ∩ B).card ≤ min A.card B.card :=
      le_min (Finset.card_le_card Finset.inter_subset_left)
        (Finset.card_le_card Finset.inter_subset_right)
    exact_mod_cast hcard

/-- C9: `participantOverlap` is symmetric, equals 1 when both sets are
empty, equals 0 when exactly one set is empty, and always lies in the
interval `[0, 1]`. -/
theorem overlap_algebra :
    (∀ A B : Finset String, participantOverlap A B = participantOverlap B A) ∧
    participantOverlap (∅ : Finset String) ∅ = 1 ∧
    (∀ B : Finset String, B ≠ ∅ →
      participantOverlap ∅ B = 0 ∧ participantOverlap B ∅ = 0) ∧
    (∀ A B : Finset String, 0 ≤ participantOverlap A B ∧ participantOverlap A B ≤ 1) := by
  refine ⟨participantOverlap_comm, by simp [participantOverlap], fun B hB => ?_,
    fun A B => ⟨participantOverlap_nonneg A B, participantOverlap_le_one A B⟩⟩
  have hc : B.card ≠ 0 := by simpa [Finset.card_eq_zero] using hB
  constructor <;> simp [participantOverlap, hc]

/-- Closed instance of C9's one-empty-set case. -/
theorem overlap_algebra_witness :
    participantOverlap (∅ : Finset String) {"a"} = 0 ∧
    participantOverlap {"a"} (∅ : Finset String) = 0 :=
  overlap_algebra.2.2.1 {"a"} (by simp)

/-- C3 counterexample: an exact name match scores 100 in the code, not
the 95 the claim states. -/
theorem match_score_cex :
    (chatMatch (some "Family") (∅ : Finset String) ⟨1, "Family", ∅⟩).1 = 100 ∧
    (chatMatch (some "Family") (∅ : Finset String) ⟨1, "Family", ∅⟩).2 =
      MatchReason.exactName ∧
    (100 : ℤ) ≠ 95 := by
  refine ⟨by decide, by decide, by decide⟩

/-- C3 as amended: the suggestion scores are 100 for an exact name match,
`round(overlap*80)` for an overlap of at least one half, and
`round(overlap*50)` for a generic-named chat with nonzero smaller
overlap. -/
theorem match_score_amended (ng : Option String) (tP : Finset String) (c : ChatRow) :
    (nameMatchBool ng c.name = true → chatMatch ng tP c = (100, .exactName)) ∧
    (nameMatchBool ng c.name = false →
      (1 : ℚ)/2 ≤ participantOverlap tP c.participants →
      chatMatch ng tP c = (round (participantOverlap tP c.participants * 80),
        .byOverlap (round (participantOverlap tP c.participants * 100)))) ∧
    (nameMatchBool ng c.name = false →
      participantOverlap tP c.participants < (1 : ℚ)/2 →
      isGenericName (some c.name) = true →
      0 < participantOverlap tP c.participants →
      chatMatch ng tP c = (round (participantOverlap tP c.participants * 50),
        .genericOverlap (round (participantOverlap tP c.participants * 100)))) := by
  refine ⟨fun h => ?_, fun h h2 => ?_, fun h h2 h3 h4 => ?_⟩
  · simp [chatMatch, h]
  · unfold chatMatch
    rw [if_neg (by simp [h]), if_pos h2]
  · unfold chatMatch
    rw [if_neg (by simp [h]), if_neg (not_le.2 h2), if_pos ⟨h3, h4⟩]

/-- Closed instance of C3's amended exact-name branch. -/
theorem match_score_amended_witness :
    chatMatch (some "Family") (∅ : Finset String) ⟨1, "Family", ∅⟩ =
      (100, .exactName) :=
  (match_score_amended (some "Family") ∅ ⟨1, "Family", ∅⟩).1 (by decide)

/-- C5 counterexample: the suggestion path applies the exact-name match
even though the name guess is the generic placeholder "chat". -/
theorem suggestion_generic_cex :
    isGenericName (some "chat") = true ∧
    (chatMatch (some "chat") (∅ : Finset String) ⟨1, "Chat", ∅⟩).2 =
      MatchReason.exactName := by
  refine ⟨by decide, by decide⟩

theorem jsTruthy_of_not_generic (ng : Option String) (h : isGenericName ng = false) :
    jsTruthy ng = true := by
  cases ng with
  | none => simp [isGenericName] at h
  | some s =>
    cases hs : s.isEmpty with
    | true => simp [isGenericName, hs] at h
    | false => simp [jsTruthy, hs]

/-- C5 as amended: trimmed case-insensitive comparison is used on both
paths, but only the legacy auto-match path is guarded by the generic
placeholder test; the suggestion path's exact-name match fires whenever
both names are non-empty and equal after trimming and lower-casing. -/
theorem name_step_guards (ng : Option String) (tP : Finset String) (c : ChatRow)
    (chats : List ChatRow) :
    ((chatMatch ng tP c).2 = MatchReason.exactName ↔ nameMatchBool ng c.name = true) ∧
    (isGenericName ng = true → autoNameStep ng chats = none) ∧
    (isGenericName ng = false →
      autoNameStep ng chats =
        (chats.find? fun c2 =>
          !c2.name.isEmpty &&
            (strLower (strTrim c2.name) == strLower (strTrim (ng.getD "")))).map (·.id)) := by
  refine ⟨?_, fun h => ?_, fun h => ?_⟩
  · by_cases hn : nameMatchBool ng c.name
    · simp [chatMatch, hn]
    · simp only [chatMatch]
      rw [if_neg (by simpa using hn)]
      split
      · simp [hn]
      split
      · simp [hn]
      · simp [hn]
  · simp [autoNameStep, h]
  · simp [autoNameStep, h, jsTruthy_of_not_generic ng h]

/-- Closed instance of C5's amended auto-path guard: the legacy auto
matcher refuses a generic name guess even when a chat name would match. -/
theorem name_step_guards_witness :
    autoNameStep (some "chat") [⟨1, "Chat", ∅⟩] = none :=
  (name_step_guards (some "chat") ∅ ⟨1, "Chat", ∅⟩ [⟨1, "Chat", ∅⟩]).2.1 (by decide)

theorem keepMessage_true_iff (lastTime : Option Int) (m : RawMessage) :
    keepMessage lastTime m = true ↔
      (m.timestamp = none ∨
        ∀ t, m.timestamp = some t → ∀ c, lastTime = some c → c < t) := by
  cases hm : m.timestamp <;> cases hl : lastTime <;> simp [keepMessage, hm, hl]

/-- C4: with the cutoff taken as the greatest stored timestamp of the
target chat, exactly the messages with no timestamp or with a timestamp
strictly above the cutoff pass the filter (in particular everything
passes when the chat has no timestamped messages), and with no cutoff —
the created-chat case — every message passes. -/
theorem cutoff_filter (db : DB) (tid : Nat) (msgs : List RawMessage) :
    (∀ m, m ∈ msgs.filter (keepMessage (chatMaxTimestamp db tid)) ↔
      (m ∈ msgs ∧ (m.timestamp = none ∨
        ∀ t, m.timestamp = some t → ∀ c, chatMaxTimestamp db tid = some c → c < t))) ∧
    msgs.filter (keepMessage none) = msgs := by
  constructor
  · intro m
    rw [List.mem_filter, keepMessage_true_iff]
  · rw [List.filter_eq_self]
    intro m _
    cases hm : m.timestamp <;> simp [keepMessage, hm]

/-- Closed instance of C4's no-cutoff case. -/
theorem cutoff_filter_witness :
    rerunParsed.messages.filter (keepMessage none) = rerunParsed.messages :=
  (cutoff_filter rerunDB 1 rerunParsed.messages).2

/-- C8: a confirm on a session past the TTL responds with the expired
error, removes the session entry and the staged bundle file, and leaves
the database untouched; the background sweep likewise drops the expired
entry. -/
theorem confirm_after_expiry (st : ServerState) (uid : Nat) (now : Int) (pid : String)
    (preview : Preview) (target : Option Nat)
    (hlook : (st.previews.find? fun kv => kv.1 == pid).map (·.2) = some preview)
    (hown : preview.userId = uid)
    (hexp : PREVIEW_TTL_MS < now - preview.createdAt) :
    (uploadConfirm st uid now (some pid) target).2 = .expired ∧
    ((uploadConfirm st uid now (some pid) target).1.previews.find? fun kv => kv.1 == pid)
      = none ∧
    lookupTmp (uploadConfirm st uid now (some pid) target).1.fsys preview.tempPath = none ∧
    (uploadConfirm st uid now (some pid) target).1.db = st.db ∧
    (pid, preview) ∉ (sweepOnce st.previews st.fsys now).1 := by
  have hpre : confirmPrecheck st uid now (some pid) =
      ({ st with previews := st.previews.filter fun kv => kv.1 != pid,
                 fsys := unlinkTmp st.fsys preview.tempPath }, .stop .expired) := by
    simp only [confirmPrecheck]
    rw [hlook]
    simp [hown, hexp]
  have hstep : uploadConfirm st uid now (some pid) target =
      ({ st with previews := st.previews.filter fun kv => kv.1 != pid,
                 fsys := unlinkTmp st.fsys preview.tempPath }, .expired) := by
    simp only [uploadConfirm, hpre]
  refine ⟨by rw [hstep], ?_, ?_, by rw [hstep], ?_⟩
  · rw [hstep]
    refine List.find?_eq_none.2 fun kv hkv => ?_
    simpa using (List.mem_filter.1 hkv).2
  · rw [hstep]
    simp only [lookupTmp, unlinkTmp]
    rw [Option.map_eq_none']
    refine List.find?_eq_none.2 fun kv hkv => ?_
    simpa using (List.mem_filter.1 hkv).2
  · intro hmem
    simpa [hexp] using (List.mem_filter.1 hmem).2

/-- Closed instance of C8: the expired demo session is unconfirmable. -/
theorem confirm_after_expiry_witness :
    (uploadConfirm staleState 7 2000000 (some "p") none).2 = .expired :=
  (confirm_after_expiry staleState 7 2000000 "p" demoPreview none (by decide) rfl
    (by decide)).1

/-! ### Insert and message-loop lemmas -/

theorem insertMessage_of_dup {db : DB} {cid : Nat} {a : Option String} {content : String}
    {ts : Option Int} {ty : String} {mp : Option String}
    (h : ∃ sm ∈ db.messages, dupKeyMatches sm cid a ts content = true) :
    insertMessage db cid a content ts ty mp = (db, false) := by
  unfold insertMessage
  rw [if_pos]
  exact List.any_eq_true.2 (by obtain ⟨sm, hm, hk⟩ := h; exact ⟨sm, hm, hk⟩)

theorem insertMessage_mono {db : DB} {cid : Nat} {a : Option String} {content : String}
    {ts : Option Int} {ty : String} {mp : Option String} :
    ∀ x ∈ db.messages, x ∈ (insertMessage db cid a content ts ty mp).1.messages := by
  intro x hx
  unfold insertMessage
  split
  · exact hx
  · simp only [List.mem_append]
    exact Or.inl hx

theorem insertMessage_chats {db : DB} {cid : Nat} {a : Option String} {content : String}
    {ts : Option Int} {ty : String} {mp : Option String} :
    (insertMessage db cid a content ts ty mp).1.chats = db.chats := by
  unfold insertMessage
  split <;> rfl

theorem insertMessage_key {db : DB} {cid : Nat} {a : Option String} {content : String}
    {ts : Option Int} {ty : String} {mp : Option String} :
    ∃ sm ∈ (insertMessage db cid a content ts ty mp).1.messages,
      dupKeyMatches sm cid a ts content = true := by
  unfold insertMessage
  split
  · rename_i h
    obtain ⟨sm, hm, hk⟩ := List.any_eq_true.1 h
    exact ⟨sm, hm, hk⟩
  · refine ⟨⟨cid, a, content, ts, ty, mp⟩, by simp, ?_⟩
    simp [dupKeyMatches]

theorem mediaResolve_added (uid cid : Nat) (fm : List (String × MediaFile))
    (f : FileSys) (s : Stats) (m : RawMessage) :
    (mediaResolve uid cid fm f s m).2.2.addedMessages = s.addedMessages ∧
    (mediaResolve uid cid fm f s m).2.2.skippedMessages = s.skippedMessages := by
  unfold mediaResolve
  split
  · exact ⟨rfl, rfl⟩
  split
  · exact ⟨rfl, rfl⟩
  · split
    · exact ⟨rfl, rfl⟩
    · exact ⟨rfl, rfl⟩

theorem processOneMessage_fst (uid cid : Nat) (fm : List (String × MediaFile))
    (db : DB) (f : FileSys) (s : Stats) (m : RawMessage) :
    (processOneMessage uid cid fm db f s m).1 =
      (insertMessage db cid (jsOrNull m.author) m.content m.timestamp m.type
        (mediaResolve uid cid fm f s m).2.1).1 := by
  simp only [processOneMessage]
  split <;> rfl

theorem processOneMessage_dup (uid cid : Nat) (fm : List (String × MediaFile))
    (db : DB) (f : FileSys) (s : Stats) (m : RawMessage)
    (h : ∃ sm ∈ db.messages,
      dupKeyMatches sm cid (jsOrNull m.author) m.timestamp m.content = true) :
    (processOneMessage uid cid fm db f s m).1 = db ∧
    (processOneMessage uid cid fm db f s m).2.2.addedMessages = s.addedMessages ∧
    (processOneMessage uid cid fm db f s m).2.2.skippedMessages = s.skippedMessages + 1 := by
  have hins := @insertMessage_of_dup db cid (jsOrNull m.author) m.content m.timestamp
    m.type ((mediaResolve uid cid fm f s m).2.1) h
  simp only [processOneMessage, hins]
  exact ⟨rfl, (mediaResolve_added uid cid fm f s m).1,
    congrArg (· + 1) (mediaResolve_added uid cid fm f s m).2⟩

theorem processMessages_chats (uid cid : Nat) (fm : List (String × MediaFile))
    (msgs : List RawMessage) :
    ∀ db f s, (processMessages uid cid fm msgs db f s).1.chats = db.chats := by
  induction msgs with
  | nil => intro db f s; rfl
  | cons m rest ih =>
    intro db f s
    show (processMessages uid cid fm rest _ _ _).1.chats = _
    rw [ih]
    rw [processOneMessage_fst, insertMessage_chats]

theorem processMessages_mono (uid cid : Nat) (fm : List (String × MediaFile))
    (msgs : List RawMessage) :
    ∀ db f s, ∀ x ∈ db.messages, x ∈ (processMessages uid cid fm msgs db f s).1.messages := by
  induction msgs with
  | nil => intro db f s x hx; exact hx
  | cons m rest ih =>
    intro db f s x hx
    show x ∈ (processMessages uid cid fm rest _ _ _).1.messages
    apply ih
    rw [processOneMessage_fst]
    exact insertMessage_mono x hx

theorem processMessages_keys (uid cid : Nat) (fm : List (String × MediaFile))
    (msgs : List RawMessage) :
    ∀ db f s, ∀ m ∈ msgs,
      ∃ sm ∈ (processMessages uid cid fm msgs db f s).1.messages,
        dupKeyMatches sm cid (jsOrNull m.author) m.timestamp m.content = true := by
  induction msgs with
  | nil => intro db f s m hm; exact absurd hm (by simp)
  | cons m0 rest ih =>
    intro db f s m hm
    rcases List.mem_cons.1 hm with h | h
    · subst h
      show ∃ sm ∈ (processMessages uid cid fm rest _ _ _).1.messages, _
      obtain ⟨sm, hsm, hk⟩ := @insertMessage_key db cid (jsOrNull m.author) m.content
        m.timestamp m.type ((mediaResolve uid cid fm f s m).2.1)
      refine ⟨sm, ?_, hk⟩
      apply processMessages_mono
      rw [processOneMessage_fst]
      exact hsm
    · exact ih _ _ _ m h

theorem processMessages_all_dup (uid cid : Nat) (fm : List (String × MediaFile))
    (msgs : List RawMessage) :
    ∀ db f s,
      (∀ m ∈ msgs, ∃ sm ∈ db.messages,
        dupKeyMatches sm cid (jsOrNull m.author) m.timestamp m.content = true) →
      (processMessages uid cid fm msgs db f s).1 = db ∧
      (processMessages uid cid fm msgs db f s).2.2.addedMessages = s.addedMessages ∧
      (processMessages uid cid fm msgs db f s).2.2.skippedMessages =
        s.skippedMessages + msgs.length := by
  induction msgs with
  | nil =>
    intro db f s _
    exact ⟨rfl, rfl, by simp only [List.length_nil, Nat.add_zero]; rfl⟩
  | cons m rest ih =>
    intro db f s h
    have hm := h m (by simp)
    obtain ⟨hdb, hadd, hskip⟩ := processOneMessage_dup uid cid fm db f s m hm
    have hstep : processMessages uid cid fm (m :: rest) db f s =
        processMessages uid cid fm rest (processOneMessage uid cid fm db f s m).1
          (processOneMessage uid cid fm db f s m).2.1
          (processOneMessage uid cid fm db f s m).2.2 := rfl
    rw [hstep, hdb]
    have hrest := ih db (processOneMessage uid cid fm db f s m).2.1
      (processOneMessage uid cid fm db f s m).2.2
      (fun m2 hm2 => h m2 (List.mem_cons_of_mem _ hm2))
    refine ⟨hrest.1, ?_, ?_⟩
    · rw [hrest.2.1, hadd]
    · rw [hrest.2.2, hskip, List.length_cons]
      omega

/-! ### Timestamp cutoff lemmas -/

theorem foldl_maxTS_bound (l : List (Option Int)) :
    ∀ acc t, (some t ∈ l ∨ ∃ a, acc = some a ∧ t ≤ a) →
      ∃ c, l.foldl maxTimestampStep acc = some c ∧ t ≤ c := by
  induction l with
  | nil =>
    intro acc t h
    rcases h with h | ⟨a, ha, hta⟩
    · exact absurd h (by simp)
    · exact ⟨a, by simp [ha], hta⟩
  | cons x xs ih =>
    intro acc t h
    show ∃ c, xs.foldl maxTimestampStep (maxTimestampStep acc x) = some c ∧ t ≤ c
    apply ih
    rcases h with h | ⟨a, ha, hta⟩
    · rcases List.mem_cons.1 h with h | h
      · right
        subst h
        cases acc with
        | none => exact ⟨t, rfl, le_refl t⟩
        | some a => exact ⟨max a t, rfl, le_max_right a t⟩
      · exact Or.inl h
    · right
      subst ha
      cases x with
      | none => exact ⟨a, rfl, hta⟩
      | some b => exact ⟨max a b, rfl, le_trans hta (le_max_left a b)⟩

theorem foldl_maxTS_attained (l : List (Option Int)) :
    ∀ acc c, l.foldl maxTimestampStep acc = some c → some c ∈ l ∨ acc = some c := by
  induction l with
  | nil => intro acc c h; right; simpa using h
  | cons x xs ih =>
    intro acc c h
    rcases ih _ _ h with h1 | h1
    · exact Or.inl (List.mem_cons_of_mem _ h1)
    · cases acc with
      | none =>
        cases x with
        | none => exact absurd h1 (by simp [maxTimestampStep])
        | some b =>
          left
          simp only [maxTimestampStep] at h1
          simp [h1]
      | some a =>
        cases x with
        | none => exact Or.inr h1
        | some b =>
          simp only [maxTimestampStep, Option.some.injEq] at h1
          rcases max_cases a b with ⟨hm, _⟩ | ⟨hm, _⟩
          · right
            rw [← h1, hm]
          · left
            rw [← h1, hm]
            simp

theorem chatMaxTimestamp_ge (db : DB) (cid : Nat) (sm : StoredMessage) (t : Int)
    (hmem : sm ∈ db.messages) (hcid : sm.chatId = cid) (hts : sm.timestamp = some t) :
    ∃ c, chatMaxTimestamp db cid = some c ∧ t ≤ c := by
  unfold chatMaxTimestamp
  apply foldl_maxTS_bound
  left
  rw [List.mem_map]
  exact ⟨sm, List.mem_filter.2 ⟨hmem, by simp [hcid]⟩, hts⟩

theorem chatMaxTimestamp_mem (db : DB) (cid : Nat) (c : Int)
    (h : chatMaxTimestamp db cid = some c) :
    ∃ sm ∈ db.messages, sm.chatId = cid ∧ sm.timestamp = some c := by
  unfold chatMaxTimestamp at h
  rcases foldl_maxTS_attained _ _ _ h with h1 | h1
  · rw [List.mem_map] at h1
    obtain ⟨sm, hmem, hts⟩ := h1
    have hf := List.mem_filter.1 hmem
    exact ⟨sm, hf.1, by simpa using hf.2, hts⟩
  · exact absurd h1 (by simp)

theorem chatMaxTimestamp_congr {db db' : DB} (h : db.messages = db'.messages) (cid : Nat) :
    chatMaxTimestamp db cid = chatMaxTimestamp db' cid := by
  unfold chatMaxTimestamp
  rw [h]

/-! ### Confirm-transcript lemmas and the idempotent re-run -/

theorem dupKey_props {sm : StoredMessage} {cid : Nat} {a : Option String}
    {ts : Option Int} {content : String}
    (h : dupKeyMatches sm cid a ts content = true) :
    sm.chatId = cid ∧ sm.timestamp = ts := by
  simp only [dupKeyMatches, Bool.and_eq_true, beq_iff_eq] at h
  exact ⟨h.1.1.1, h.1.2⟩

theorem keepMessage_false {lastTime : Option Int} {m : RawMessage} {t : Int}
    (h : keepMessage lastTime m = false) (hts : m.timestamp = some t) :
    ∃ c, lastTime = some c ∧ t ≤ c := by
  cases hl : lastTime with
  | none => rw [hl] at h; simp [keepMessage, hts] at h
  | some l =>
    refine ⟨l, rfl, ?_⟩
    rw [hl] at h
    simp only [keepMessage, hts, decide_eq_false_iff_not, not_lt] at h
    exact h

theorem nameUpd_messages (db : DB) (tid : Nat) (n : String) (c : Prop) [Decidable c] :
    (if c then { db with chats := db.chats.map fun c2 =>
        if c2.id = tid then { c2 with name := n } else c2 } else db).messages =
      db.messages := by
  split <;> rfl

theorem nameUpd_pairs (db : DB) (tid : Nat) (n : String) (c : Prop) [Decidable c] :
    ((if c then { db with chats := db.chats.map fun c2 =>
        if c2.id = tid then { c2 with name := n } else c2 } else db).chats.map
      fun c2 => (c2.id, c2.userId)) = db.chats.map fun c2 => (c2.id, c2.userId) := by
  split
  · rw [List.map_map]
    apply List.map_congr_left
    intro c2 _
    by_cases h : c2.id = tid <;> simp [h]
  · rfl

theorem find?_isSome_pairs (tid uid : Nat) : ∀ (l l2 : List ChatRowDB),
    l.map (fun c => (c.id, c.userId)) = l2.map (fun c => (c.id, c.userId)) →
    (l.find? fun c => c.id == tid && c.userId == uid).isSome =
      (l2.find? fun c => c.id == tid && c.userId == uid).isSome := by
  intro l
  induction l with
  | nil =>
    intro l2 h
    cases l2 with
    | nil => rfl
    | cons d ds => exact absurd h (by simp)
  | cons c cs ih =>
    intro l2 h
    cases l2 with
    | nil => exact absurd h (by simp)
    | cons d ds =>
      simp only [List.map_cons, List.cons.injEq] at h
      obtain ⟨hpair, hrest⟩ := h
      have hid : c.id = d.id := congrArg Prod.fst hpair
      have huid : c.userId = d.userId := congrArg Prod.snd hpair
      by_cases hp : (c.id == tid && c.userId == uid) = true
      · have hp2 : (d.id == tid && d.userId == uid) = true := by
          rw [← hid, ← huid]; exact hp
        simp [List.find?, hp, hp2]
      · have hpf : (c.id == tid && c.userId == uid) = false := by simpa using hp
        have hpf2 : (d.id == tid && d.userId == uid) = false := by
          rw [← hid, ← huid]; exact hpf
        simp only [List.find?, hpf, hpf2]
        exact ih ds hrest

theorem confirmTranscript_run_props (uid tid : Nat) (fm : List (String × MediaFile))
    (parsed : ParsedTranscript) (db : DB) (f : FileSys) (s : Stats)
    (db1 : DB) (f1 : FileSys) (s1 : Stats)
    (h : confirmTranscript uid (some tid) fm parsed db f s = .ok (db1, f1, s1)) :
    (db.chats.find? fun c => c.id == tid && c.userId == uid).isSome = true ∧
    db1.chats.map (fun c => (c.id, c.userId)) = db.chats.map (fun c => (c.id, c.userId)) ∧
    (∀ x ∈ db.messages, x ∈ db1.messages) ∧
    (∀ m ∈ parsed.messages.filter (keepMessage (chatMaxTimestamp db tid)),
      ∃ sm ∈ db1.messages,
        dupKeyMatches sm tid (jsOrNull m.author) m.timestamp m.content = true) := by
  cases hrow : db.chats.find? fun c => c.id == tid && c.userId == uid with
  | none =>
    simp only [confirmTranscript, hrow] at h
    exact Except.noConfusion h
  | some row =>
    simp only [confirmTranscript, hrow] at h
    rw [Except.ok.injEq, Prod.mk.injEq, Prod.mk.injEq] at h
    obtain ⟨hA, hB, hC⟩ := h
    subst hA
    have hmsg2 : (applyParticipants (applyNameUpdate db tid parsed.nameGuess row.name) tid
        parsed.participants).messages = db.messages := by
      show (applyNameUpdate db tid parsed.nameGuess row.name).messages = db.messages
      unfold applyNameUpdate
      exact nameUpd_messages db tid (parsed.nameGuess.getD "") _
    refine ⟨rfl, ?_, ?_, ?_⟩
    · rw [processMessages_chats]
      show (applyNameUpdate db tid parsed.nameGuess row.name).chats.map _ = _
      unfold applyNameUpdate
      exact nameUpd_pairs db tid (parsed.nameGuess.getD "") _
    · intro x hx
      apply processMessages_mono
      rw [hmsg2]
      exact hx
    · intro m hm
      have hmax : chatMaxTimestamp (applyParticipants
          (applyNameUpdate db tid parsed.nameGuess row.name) tid parsed.participants) tid =
          chatMaxTimestamp db tid := chatMaxTimestamp_congr hmsg2 tid
      rw [← hmax] at hm
      exact processMessages_keys uid tid fm _ _ _ _ m hm

theorem confirmTranscript_all_dup_stats (uid tid : Nat) (fm : List (String × MediaFile))
    (parsed : ParsedTranscript) (db : DB) (f : FileSys) (s : Stats)
    (db' : DB) (f' : FileSys) (s' : Stats) (row : ChatRowDB)
    (hrow : (db.chats.find? fun c => c.id == tid && c.userId == uid) = some row)
    (h : confirmTranscript uid (some tid) fm parsed db f s = .ok (db', f', s'))
    (hdup : ∀ m ∈ parsed.messages.filter (keepMessage (chatMaxTimestamp db tid)),
      ∃ sm ∈ db.messages,
        dupKeyMatches sm tid (jsOrNull m.author) m.timestamp m.content = true) :
    s'.addedMessages = s.addedMessages ∧
    s'.skippedMessages = s.skippedMessages + parsed.messages.length := by
  simp only [confirmTranscript, hrow] at h
  rw [Except.ok.injEq, Prod.mk.injEq, Prod.mk.injEq] at h
  obtain ⟨hA, hB, hC⟩ := h
  subst hC
  have hmsg2 : (applyParticipants (applyNameUpdate db tid parsed.nameGuess row.name) tid
      parsed.participants).messages = db.messages := by
    show (applyNameUpdate db tid parsed.nameGuess row.name).messages = db.messages
    unfold applyNameUpdate
    exact nameUpd_messages db tid (parsed.nameGuess.getD "") _
  have hmax := chatMaxTimestamp_congr hmsg2 tid
  have hdup2 : ∀ m ∈ parsed.messages.filter (keepMessage (chatMaxTimestamp
      (applyParticipants (applyNameUpdate db tid parsed.nameGuess row.name) tid
        parsed.participants) tid)),
      ∃ sm ∈ (applyParticipants (applyNameUpdate db tid parsed.nameGuess row.name) tid
        parsed.participants).messages,
        dupKeyMatches sm tid (jsOrNull m.author) m.timestamp m.content = true := by
    intro m hm
    rw [hmax] at hm
    obtain ⟨sm, hsm, hk⟩ := hdup m hm
    refine ⟨sm, ?_, hk⟩
    rw [hmsg2]
    exact hsm
  have hpm := processMessages_all_dup uid tid fm
    (parsed.messages.filter (keepMessage (chatMaxTimestamp
      (applyParticipants (applyNameUpdate db tid parsed.nameGuess row.name) tid
        parsed.participants) tid)))
    (applyParticipants (applyNameUpdate db tid parsed.nameGuess row.name) tid
      parsed.participants)
    f { s with updatedChats := s.updatedChats + 1 } hdup2
  constructor
  · exact hpm.2.1
  · have hf := hpm.2.2
    have hs1 : ({ s with updatedChats := s.updatedChats + 1 } : Stats).skippedMessages =
        s.skippedMessages := rfl
    have hle : (parsed.messages.filter (keepMessage (chatMaxTimestamp
        (applyParticipants (applyNameUpdate db tid parsed.nameGuess row.name) tid
          parsed.participants) tid))).length ≤ parsed.messages.length :=
      List.length_filter_le _ _
    show (processMessages uid tid fm
        (parsed.messages.filter (keepMessage (chatMaxTimestamp
          (applyParticipants (applyNameUpdate db tid parsed.nameGuess row.name) tid
            parsed.participants) tid)))
        (applyParticipants (applyNameUpdate db tid parsed.nameGuess row.name) tid
          parsed.participants)
        f { s with updatedChats := s.updatedChats + 1 }).2.2.skippedMessages +
        (parsed.messages.length -
          (parsed.messages.filter (keepMessage (chatMaxTimestamp
            (applyParticipants (applyNameUpdate db tid parsed.nameGuess row.name) tid
              parsed.participants) tid))).length) =
        s.skippedMessages + parsed.messages.length
    omega

/-- C1: re-running the confirmed import of an identical transcript into
the same target chat adds no messages the second time and reports every
message of the transcript as skipped. -/
theorem confirm_rerun (uid tid : Nat) (fm : List (String × MediaFile))
    (parsed : ParsedTranscript) (db0 : DB) (f0 : FileSys)
    (db1 : DB) (f1 : FileSys) (s1 : Stats)
    (h1 : confirmTranscript uid (some tid) fm parsed db0 f0 Stats.zero = .ok (db1, f1, s1)) :
    ∃ db2 f2 s2,
      confirmTranscript uid (some tid) fm parsed db1 f1 Stats.zero = .ok (db2, f2, s2) ∧
      s2.addedMessages = 0 ∧ s2.skippedMessages = parsed.messages.length := by
  obtain ⟨hfind0, hpairs, hmono, hkeys⟩ :=
    confirmTranscript_run_props uid tid fm parsed db0 f0 Stats.zero db1 f1 s1 h1
  have hfind1 : (db1.chats.find? fun c => c.id == tid && c.userId == uid).isSome = true := by
    rw [find?_isSome_pairs tid uid db1.chats db0.chats hpairs]
    exact hfind0
  obtain ⟨row1, hrow1⟩ := Option.isSome_iff_exists.1 hfind1
  have hcut : ∀ m ∈ parsed.messages, ∀ t : Int, m.timestamp = some t →
      ∃ c1, chatMaxTimestamp db1 tid = some c1 ∧ t ≤ c1 := by
    intro m hm t hts
    by_cases hkeep : keepMessage (chatMaxTimestamp db0 tid) m = true
    · obtain ⟨sm, hsm, hkey⟩ := hkeys m (List.mem_filter.2 ⟨hm, hkeep⟩)
      obtain ⟨hc, htsm⟩ := dupKey_props hkey
      exact chatMaxTimestamp_ge db1 tid sm t hsm hc (htsm.trans hts)
    · have hkeepf : keepMessage (chatMaxTimestamp db0 tid) m = false := by
        simpa using hkeep
      obtain ⟨c0, hc0, hle⟩ := keepMessage_false hkeepf hts
      obtain ⟨sm0, hsm0, hcid0, hts0⟩ := chatMaxTimestamp_mem db0 tid c0 hc0
      obtain ⟨c1, hc1, hge⟩ := chatMaxTimestamp_ge db1 tid sm0 c0 (hmono sm0 hsm0) hcid0 hts0
      exact ⟨c1, hc1, le_trans hle hge⟩
  have hfilter : parsed.messages.filter (keepMessage (chatMaxTimestamp db1 tid)) =
      parsed.messages.filter (fun m => m.timestamp.isNone) := by
    apply List.filter_congr
    intro m hm
    cases hts : m.timestamp with
    | none => simp [keepMessage, hts]
    | some t =>
      obtain ⟨c1, hc1, hge⟩ := hcut m hm t hts
      have hdec : decide (c1 < t) = false := decide_eq_false (not_lt.2 hge)
      simp [keepMessage, hts, hc1, hdec]
  have halldup : ∀ m ∈ parsed.messages.filter (fun m => m.timestamp.isNone),
      ∃ sm ∈ db1.messages,
        dupKeyMatches sm tid (jsOrNull m.author) m.timestamp m.content = true := by
    intro m hm
    obtain ⟨hmem, hnone⟩ := List.mem_filter.1 hm
    have hkeep : keepMessage (chatMaxTimestamp db0 tid) m = true := by
      cases hts : m.timestamp with
      | none => simp [keepMessage, hts]
      | some t => rw [hts] at hnone; simp at hnone
    exact hkeys m (List.mem_filter.2 ⟨hmem, hkeep⟩)
  obtain ⟨x, h2⟩ : ∃ x, confirmTranscript uid (some tid) fm parsed db1 f1 Stats.zero =
      .ok x := by
    simp only [confirmTranscript, hrow1]
    exact ⟨_, rfl⟩
  obtain ⟨db2, f2, s2⟩ := x
  have hdup1 : ∀ m ∈ parsed.messages.filter (keepMessage (chatMaxTimestamp db1 tid)),
      ∃ sm ∈ db1.messages,
        dupKeyMatches sm tid (jsOrNull m.author) m.timestamp m.content = true := by
    rw [hfilter]
    exact halldup
  have hstats := confirmTranscript_all_dup_stats uid tid fm parsed db1 f1 Stats.zero
    db2 f2 s2 row1 hrow1 h2 hdup1
  refine ⟨db2, f2, s2, h2, hstats.1, ?_⟩
  rw [hstats.2]
  show 0 + parsed.messages.length = parsed.messages.length
  omega

/-- Closed instance of C1 on the concrete two-message transcript. -/
theorem confirm_rerun_witness :
    ∃ db2 f2 s2,
      confirmTranscript 7 (some 1) [] rerunParsed rerunAfter.1 rerunAfter.2.1 Stats.zero =
        .ok (db2, f2, s2) ∧
      s2.addedMessages = 0 ∧ s2.skippedMessages = rerunParsed.messages.length :=
  confirm_rerun 7 1 [] rerunParsed rerunDB rerunFS rerunAfter.1 rerunAfter.2.1
    rerunAfter.2.2 rfl

/-- C2: when the session is valid but the caller-specified target chat id
does not exist for this user, the confirm endpoint responds with the
not-found error and the whole server state — database, preview store and
file system — is exactly as before the call. -/
theorem confirm_bad_target (st : ServerState) (uid : Nat) (now : Int) (pid : String)
    (preview : Preview) (bundle : Bundle) (tid : Nat)
    (hlook : (st.previews.find? fun kv => kv.1 == pid).map (·.2) = some preview)
    (hown : preview.userId = uid)
    (hfresh : ¬ PREVIEW_TTL_MS < now - preview.createdAt)
    (hbundle : lookupTmp st.fsys preview.tempPath = some bundle)
    (hne : bundle.transcripts ≠ [])
    (hmissing : ∀ c ∈ st.db.chats, ¬(c.id = tid ∧ c.userId = uid)) :
    uploadConfirm st uid now (some pid) (some tid) = (st, .chatNotFound tid) := by
  have hpre : confirmPrecheck st uid now (some pid) = (st, .proceed preview) := by
    simp only [confirmPrecheck]
    rw [hlook]
    simp [hown, hfresh]
  have hfind : (st.db.chats.find? fun c => c.id == tid && c.userId == uid) = none := by
    refine List.find?_eq_none.2 fun c hc => ?_
    have := hmissing c hc
    simp only [Bool.and_eq_true, beq_iff_eq]
    intro hcon
    exact this ⟨hcon.1, hcon.2⟩
  cases htr : bundle.transcripts with
  | nil => exact absurd htr hne
  | cons p rest =>
    have hloop : confirmLoop uid (some tid) bundle.filesMap bundle.transcripts
        st.db st.fsys Stats.zero = .error (.chatNotFound tid, st.fsys) := by
      rw [htr]
      simp only [confirmLoop, confirmTranscript, hfind]
    simp only [uploadConfirm, hpre, hbundle, confirmResume, hloop]

/-- Closed instance of C2: confirming the demo session into the absent
chat id 99 is a not-found failure that changes nothing. -/
theorem confirm_bad_target_witness :
    uploadConfirm demoState 7 0 (some "p") (some 99) = (demoState, .chatNotFound 99) :=
  confirm_bad_target demoState 7 0 "p" demoPreview demoBundle 99 rfl rfl (by decide) rfl
    (by decide) (by decide)

/-! ### Linearizability of confirms (claim C10) -/

/-- C10 counterexample: under an admissible interleaving of the event
loop — both requests pass the synchronous precheck and re-read the staged
ZIP before either finishes — two confirms of the same session id both
return success, because the handler removes the session from the preview
map only after the import completes. -/
theorem concurrent_confirms_cex :
    interleavedConfirms.1.isOk = true ∧ interleavedConfirms.2.isOk = true := by
  constructor <;> rfl

theorem confirmPrecheck_stop_cases (st : ServerState) (uid : Nat) (now : Int)
    (po : Option String) (r : RouteResult)
    (h : (confirmPrecheck st uid now po).2 = .stop r) :
    r = .badRequest ∨ r = .notFoundSession ∨ r = .forbidden ∨ r = .expired := by
  unfold confirmPrecheck at h
  repeat' split at h
  all_goals simp_all

/-- C10 as amended: sequentially, at most one confirm of a session
succeeds — a completed successful confirm removes the session entry, so
any later confirm of the same id (by any caller, at any time, with any
target) answers not-found.  The removal happens only after the import
finishes, not atomically with the start of its use (see the
counterexample for the overlapping schedule). -/
theorem confirm_sequential_once (st st' : ServerState) (uid uid2 : Nat) (now now2 : Int)
    (pid : String) (target target2 : Option Nat) (stats : Stats)
    (h : uploadConfirm st uid now (some pid) target = (st', .ok stats)) :
    (uploadConfirm st' uid2 now2 (some pid) target2).2 = .notFoundSession := by
  have hnone : (st'.previews.find? fun kv => kv.1 == pid) = none := by
    unfold uploadConfirm at h
    cases hpre : confirmPrecheck st uid now (some pid) with
    | mk st1 outcome =>
      rw [hpre] at h
      cases outcome with
      | stop r =>
        simp only at h
        have hr : r = .ok stats := congrArg Prod.snd h
        rcases confirmPrecheck_stop_cases st uid now (some pid) r
            (by rw [hpre]) with h1 | h1 | h1 | h1 <;> rw [h1] at hr <;> exact absurd hr (by simp)
      | proceed preview =>
        simp only at h
        cases hlk : lookupTmp st1.fsys preview.tempPath with
        | none =>
          rw [hlk] at h
          have : RouteResult.serverError = .ok stats := congrArg Prod.snd h
          exact absurd this (by simp)
        | some bundle =>
          rw [hlk] at h
          simp only at h
          unfold confirmResume at h
          cases hcl : confirmLoop uid target bundle.filesMap bundle.transcripts
              st1.db st1.fsys Stats.zero with
          | error e =>
            obtain ⟨e1, fe⟩ := e
            cases e1 with
            | chatNotFound cid =>
              rw [hcl] at h
              simp only at h
              have hr : RouteResult.chatNotFound cid = .ok stats := congrArg Prod.snd h
              exact absurd hr (by simp)
          | ok y =>
            obtain ⟨db1, fy, stats1⟩ := y
            rw [hcl] at h
            simp only at h
            rw [Prod.mk.injEq] at h
            obtain ⟨hst, _⟩ := h
            rw [← hst]
            refine List.find?_eq_none.2 fun kv hkv => ?_
            simpa using (List.mem_filter.1 hkv).2
  simp only [uploadConfirm, confirmPrecheck, hnone, Option.map_none']

/-- Closed instance of C10's amended sequential property on the demo
session. -/
theorem confirm_sequential_once_witness :
    (uploadConfirm demoConfirmRun.1 7 1 (some "p") none).2 = .notFoundSession :=
  confirm_sequential_once demoState demoConfirmRun.1 7 7 0 1 "p" none none
    demoConfirmStats rfl

/-! ### Chat merge lemmas (claims C6 and C7) -/

theorem jsSetDedup_aux (l : List Nat) :
    ∀ acc, (acc ++ l).Nodup →
      l.foldl (fun acc x => if x ∈ acc then acc else acc ++ [x]) acc = acc ++ l := by
  induction l with
  | nil => intro acc _; simp
  | cons x xs ih =>
    intro acc h
    have hx : x ∉ acc := by
      intro hmem
      rcases List.nodup_append.1 h with ⟨_, _, hdisj⟩
      exact hdisj hmem (by simp)
    show xs.foldl _ (if x ∈ acc then acc else acc ++ [x]) = acc ++ x :: xs
    rw [if_neg hx]
    have h2 : ((acc ++ [x]) ++ xs).Nodup := by
      rw [List.append_assoc]
      simpa using h
    rw [ih (acc ++ [x]) h2]
    simp

theorem jsSetDedup_of_nodup (l : List Nat) (h : l.Nodup) : jsSetDedup l = l := by
  have := jsSetDedup_aux l [] (by simpa using h)
  simpa [jsSetDedup] using this

theorem insertionSort_head (l : List (Nat × Nat)) :
    (List.insertionSort (fun a b => b.2 ≤ a.2) l).head? = firstMaxSel l := by
  induction l with
  | nil => rfl
  | cons x xs ih =>
    show (List.orderedInsert _ x (List.insertionSort _ xs)).head? = _
    cases hs : List.insertionSort (fun a b : Nat × Nat => b.2 ≤ a.2) xs with
    | nil =>
      rw [hs] at ih
      simp only [List.orderedInsert, firstMaxSel, ← ih]
      rfl
    | cons y ys =>
      rw [hs] at ih
      simp only [List.orderedInsert, firstMaxSel, ← ih]
      by_cases hr : y.2 ≤ x.2
      · rw [if_pos hr]
        simp [hr]
      · rw [if_neg hr]
        simp [hr]

theorem firstMaxSel_map_spec (f : Nat → Nat) : ∀ (ids : List Nat) (t c : Nat),
    firstMaxSel (ids.map fun i => (i, f i)) = some (t, c) →
    c = f t ∧ (∀ j ∈ ids, f j ≤ f t) ∧
      ∃ l1 l2, ids = l1 ++ t :: l2 ∧ ∀ i ∈ l1, f i < f t := by
  intro ids
  induction ids with
  | nil => intro t c h; exact absurd h (by simp [firstMaxSel])
  | cons i rest ih =>
    intro t c h
    rw [List.map_cons] at h
    cases hrest : firstMaxSel (rest.map fun i => (i, f i)) with
    | none =>
      have hre : rest = [] := by
        cases rest with
        | nil => rfl
        | cons a as => exact absurd hrest (by simp [firstMaxSel])
      subst hre
      simp only [firstMaxSel, List.map_nil, Option.some.injEq] at h
      obtain ⟨ht, hc⟩ := Prod.mk.injEq .. ▸ h
      subst ht
      subst hc
      exact ⟨rfl, by simp, [], [], rfl, by simp⟩
    | some m =>
      obtain ⟨u, v⟩ := m
      have hih := ih u v hrest
      simp only [firstMaxSel, hrest, Option.some.injEq] at h
      by_cases hle : v ≤ f i
      · rw [if_pos hle] at h
        obtain ⟨ht, hc⟩ := Prod.mk.injEq .. ▸ h
        subst ht
        subst hc
        refine ⟨rfl, ?_, [], rest, rfl, by simp⟩
        intro j hj
        rcases List.mem_cons.1 hj with hj | hj
        · subst hj; exact le_refl _
        · exact le_trans (hih.2.1 j hj) (hih.1 ▸ hle)
      · rw [if_neg hle] at h
        obtain ⟨ht, hc⟩ := Prod.mk.injEq .. ▸ h
        subst ht
        subst hc
        obtain ⟨hv, hmax, l1, l2, hsplit, hlt⟩ := hih
        have hif : f i < f u := by
          rw [← hv]
          exact lt_of_not_le hle
        refine ⟨hv, ?_, i :: l1, l2, by rw [hsplit]; rfl, ?_⟩
        · intro j hj
          rcases List.mem_cons.1 hj with hj | hj
          · subst hj; exact le_of_lt hif
          · exact hmax j hj
        · intro j hj
          rcases List.mem_cons.1 hj with hj | hj
          · subst hj; exact hif
          · exact hlt j hj

theorem insertMessage_fst_of_false {db : DB} {cid : Nat} {a : Option String}
    {content : String} {ts : Option Int} {ty : String} {mp : Option String}
    (h : (insertMessage db cid a content ts ty mp).2 = false) :
    (insertMessage db cid a content ts ty mp).1 = db := by
  by_cases hc : (db.messages.any fun m2 => dupKeyMatches m2 cid a ts content) = true
  · unfold insertMessage
    rw [if_pos hc]
  · exfalso
    unfold insertMessage at h
    rw [if_neg hc] at h
    simp at h

theorem insertMessage_count_of_true {db : DB} {cid : Nat} {a : Option String}
    {content : String} {ts : Option Int} {ty : String} {mp : Option String}
    (h : (insertMessage db cid a content ts ty mp).2 = true) :
    msgCount (insertMessage db cid a content ts ty mp).1 cid = msgCount db cid + 1 ∧
    ∀ c2, c2 ≠ cid → msgCount (insertMessage db cid a content ts ty mp).1 c2 =
      msgCount db c2 := by
  by_cases hc : (db.messages.any fun m2 => dupKeyMatches m2 cid a ts content) = true
  · exfalso
    unfold insertMessage at h
    rw [if_pos hc] at h
    simp at h
  · unfold insertMessage
    rw [if_neg hc]
    constructor
    · simp [msgCount, List.filter_append]
    · intro c2 hc2
      have hne : ¬cid = c2 := fun he => hc2 he.symm
      simp [msgCount, List.filter_append, hne]

theorem mergeInsertAll_spec (targetId : Nat) (ms : List StoredMessage) :
    ∀ db mv sk,
      ∃ a b, (mergeInsertAll db targetId ms mv sk).2.1 = mv + a ∧
        (mergeInsertAll db targetId ms mv sk).2.2 = sk + b ∧
        a + b = ms.length ∧
        msgCount (mergeInsertAll db targetId ms mv sk).1 targetId =
          msgCount db targetId + a ∧
        (∀ cid, cid ≠ targetId →
          msgCount (mergeInsertAll db targetId ms mv sk).1 cid = msgCount db cid) ∧
        (mergeInsertAll db targetId ms mv sk).1.chats = db.chats := by
  induction ms with
  | nil =>
    intro db mv sk
    exact ⟨0, 0, by simp [mergeInsertAll], by simp [mergeInsertAll],
      by simp, by simp [mergeInsertAll], fun _ _ => rfl, rfl⟩
  | cons m rest ih =>
    intro db mv sk
    by_cases hins :
        (insertMessage db targetId m.author m.content m.timestamp m.type m.mediaPath).2 = true
    · have hstep : mergeInsertAll db targetId (m :: rest) mv sk =
          mergeInsertAll (insertMessage db targetId m.author m.content m.timestamp
            m.type m.mediaPath).1 targetId rest (mv + 1) sk := by
        simp only [mergeInsertAll, hins, if_true]
      obtain ⟨hcnt, hother⟩ := insertMessage_count_of_true hins
      obtain ⟨a, b, h1, h2, h3, h4, h5, h6⟩ := ih
        (insertMessage db targetId m.author m.content m.timestamp m.type m.mediaPath).1
        (mv + 1) sk
      refine ⟨a + 1, b, ?_, ?_, ?_, ?_, ?_, ?_⟩
      · rw [hstep, h1]; omega
      · rw [hstep, h2]
      · simp [List.length_cons]; omega
      · rw [hstep, h4, hcnt]; omega
      · intro cid hcid
        rw [hstep, h5 cid hcid, hother cid hcid]
      · rw [hstep, h6, insertMessage_chats]
    · have hinsf : (insertMessage db targetId m.author m.content m.timestamp
          m.type m.mediaPath).2 = false := by simpa using hins
      have hfst := insertMessage_fst_of_false hinsf
      have hstep : mergeInsertAll db targetId (m :: rest) mv sk =
          mergeInsertAll db targetId rest mv (sk + 1) := by
        simp only [mergeInsertAll, hinsf, Bool.false_eq_true, if_false, hfst]
      obtain ⟨a, b, h1, h2, h3, h4, h5, h6⟩ := ih db mv (sk + 1)
      refine ⟨a, b + 1, ?_, ?_, ?_, ?_, ?_, ?_⟩
      · rw [hstep, h1]
      · rw [hstep, h2]; omega
      · simp [List.length_cons]; omega
      · rw [hstep, h4]
      · intro cid hcid
        rw [hstep, h5 cid hcid]
      · rw [hstep, h6]

theorem deleteChat_count_ne (db : DB) (s cid : Nat) (h : cid ≠ s) :
    msgCount (deleteChatCascade db s) cid = msgCount db cid := by
  unfold msgCount deleteChatCascade
  simp only [List.filter_filter]
  congr 1
  apply List.filter_congr
  intro m _
  by_cases hm : m.chatId = cid <;> simp [hm, h]

theorem deleteChat_chats_mem (db : DB) (s : Nat) (c : ChatRowDB) :
    c ∈ (deleteChatCascade db s).chats ↔ c ∈ db.chats ∧ c.id ≠ s := by
  simp [deleteChatCascade, List.mem_filter, bne_iff_ne]

theorem mergeMoveLoop_spec (targetId : Nat) : ∀ (srcs : List Nat) (db : DB) (mv sk : Nat),
    targetId ∉ srcs → srcs.Nodup →
    ∃ a b, (mergeMoveLoop db targetId srcs mv sk).2.1 = mv + a ∧
      (mergeMoveLoop db targetId srcs mv sk).2.2 = sk + b ∧
      a + b = (srcs.map fun s2 => msgCount db s2).sum ∧
      msgCount (mergeMoveLoop db targetId srcs mv sk).1 targetId =
        msgCount db targetId + a ∧
      (∀ c, c ∈ (mergeMoveLoop db targetId srcs mv sk).1.chats ↔
        (c ∈ db.chats ∧ c.id ∉ srcs)) ∧
      (∀ cid, cid ≠ targetId → cid ∉ srcs →
        msgCount (mergeMoveLoop db targetId srcs mv sk).1 cid = msgCount db cid) := by
  intro srcs
  induction srcs with
  | nil =>
    intro db mv sk _ _
    exact ⟨0, 0, by simp [mergeMoveLoop], by simp [mergeMoveLoop], by simp,
      by simp [mergeMoveLoop], fun c => by simp [mergeMoveLoop], fun _ _ _ => rfl⟩
  | cons s rest ih =>
    intro db mv sk hnt hnd
    have hs_ne : targetId ≠ s := fun he => hnt (he ▸ List.mem_cons_self s rest)
    have hrest_nt : targetId ∉ rest := fun hm => hnt (List.mem_cons_of_mem _ hm)
    have hrest_nd : rest.Nodup := (List.nodup_cons.1 hnd).2
    have hs_nrest : s ∉ rest := (List.nodup_cons.1 hnd).1
    obtain ⟨a1, b1, hi1, hi2, hi3, hi4, hi5, hi6⟩ :=
      mergeInsertAll_spec targetId (db.messages.filter fun m => m.chatId == s) db mv sk
    have hlen : (db.messages.filter fun m => m.chatId == s).length = msgCount db s := rfl
    have hstep : mergeMoveLoop db targetId (s :: rest) mv sk =
        mergeMoveLoop (deleteChatCascade (mergeInsertAll db targetId
          (db.messages.filter fun m => m.chatId == s) mv sk).1 s) targetId rest
          (mergeInsertAll db targetId (db.messages.filter fun m => m.chatId == s) mv sk).2.1
          (mergeInsertAll db targetId
            (db.messages.filter fun m => m.chatId == s) mv sk).2.2 := rfl
    obtain ⟨a2, b2, hj1, hj2, hj3, hj4, hj5, hj6⟩ := ih
      (deleteChatCascade (mergeInsertAll db targetId
        (db.messages.filter fun m => m.chatId == s) mv sk).1 s)
      (mergeInsertAll db targetId (db.messages.filter fun m => m.chatId == s) mv sk).2.1
      (mergeInsertAll db targetId (db.messages.filter fun m => m.chatId == s) mv sk).2.2
      hrest_nt hrest_nd
    have hdel_t : msgCount (deleteChatCascade (mergeInsertAll db targetId
        (db.messages.filter fun m => m.chatId == s) mv sk).1 s) targetId =
        msgCount db targetId + a1 := by
      rw [deleteChat_count_ne _ _ _ hs_ne, hi4]
    have hrest_counts : ∀ r ∈ rest, msgCount (deleteChatCascade (mergeInsertAll db targetId
        (db.messages.filter fun m => m.chatId == s) mv sk).1 s) r = msgCount db r := by
      intro r hr
      have hr_ne_s : r ≠ s := fun he => hs_nrest (he ▸ hr)
      have hr_ne_t : r ≠ targetId := fun he => hrest_nt (he ▸ hr)
      rw [deleteChat_count_ne _ _ _ hr_ne_s, hi5 r hr_ne_t]
    refine ⟨a1 + a2, b1 + b2, ?_, ?_, ?_, ?_, ?_, ?_⟩
    · rw [hstep, hj1, hi1]; omega
    · rw [hstep, hj2, hi2]; omega
    · rw [List.map_cons, List.sum_cons, ← hlen]
      have hsum : ((rest.map fun s2 => msgCount (deleteChatCascade (mergeInsertAll db
          targetId (db.messages.filter fun m => m.chatId == s) mv sk).1 s) s2).sum) =
          (rest.map fun s2 => msgCount db s2).sum := by
        congr 1
        apply List.map_congr_left
        intro r hr
        exact hrest_counts r hr
      rw [hsum] at hj3
      omega
    · rw [hstep, hj4, hdel_t]; omega
    · intro c
      rw [hstep, hj5 c, deleteChat_chats_mem, hi6]
      constructor
      · rintro ⟨⟨hc, hcs⟩, hcr⟩
        refine ⟨hc, ?_⟩
        intro hmem
        rcases List.mem_cons.1 hmem with he | he
        · exact hcs he
        · exact hcr he
      · rintro ⟨hc, hcsr⟩
        exact ⟨⟨hc, fun he => hcsr (he ▸ List.mem_cons_self s rest)⟩,
          fun hm => hcsr (List.mem_cons_of_mem _ hm)⟩
    · intro cid hcid hcids
      have hcid_s : cid ≠ s := fun he => hcids (he ▸ List.mem_cons_self s rest)
      have hcid_r : cid ∉ rest := fun hm => hcids (List.mem_cons_of_mem _ hm)
      rw [hstep, hj6 cid hcid hcid_r, deleteChat_count_ne _ _ _ hcid_s, hi5 cid hcid]

theorem mergeParticipants_fields (targetId : Nat) : ∀ (srcs : List Nat) (db : DB),
    (mergeParticipants db targetId srcs).chats = db.chats ∧
    (mergeParticipants db targetId srcs).messages = db.messages := by
  intro srcs
  induction srcs with
  | nil => intro db; exact ⟨rfl, rfl⟩
  | cons s rest ih =>
    intro db
    have hstep : mergeParticipants db targetId (s :: rest) =
        mergeParticipants { db with chatParticipants :=
          (addParticipants db.chatParticipants targetId
            ((db.chatParticipants.filter fun pr => pr.1 == s).map (·.2))) }
          targetId rest := rfl
    rw [hstep]
    exact ih _

theorem sum_split_first (f : Nat → Nat) : ∀ (ids : List Nat), ids.Nodup → ∀ t ∈ ids,
    (ids.map f).sum = f t + ((ids.filter fun i => i != t).map f).sum := by
  intro ids
  induction ids with
  | nil => intro _ t ht; exact absurd ht (by simp)
  | cons i rest ih =>
    intro hnd t ht
    rcases List.mem_cons.1 ht with h | h
    · subst h
      have hrest : rest.filter (fun i => i != t) = rest := by
        apply List.filter_eq_self.2
        intro a ha
        have hne : a ≠ t := fun he => (List.nodup_cons.1 hnd).1 (he ▸ ha)
        simpa [bne_iff_ne] using hne
      simp [List.filter_cons, hrest]
    · have hit : i ≠ t := fun he => (List.nodup_cons.1 hnd).1 (he ▸ h)
      have hrec := ih (List.nodup_cons.1 hnd).2 t h
      have hkeep : (i != t) = true := by simpa [bne_iff_ne] using hit
      simp only [List.map_cons, List.sum_cons, List.filter_cons, hkeep, if_true, hrec]
      omega

theorem msgCount_eq_of_messages {dbA dbB : DB} (h : dbA.messages = dbB.messages)
    (cid : Nat) : msgCount dbA cid = msgCount dbB cid := by
  unfold msgCount
  rw [h]

theorem applyBestName_messages (db : DB) (tid : Nat) (bn : Option String) :
    (applyBestName db tid bn).messages = db.messages := by
  cases bn <;> rfl

theorem applyBestName_mem_target (db : DB) (tid : Nat) (bn : Option String)
    (h : ∃ c ∈ db.chats, c.id = tid) :
    ∃ c ∈ (applyBestName db tid bn).chats, c.id = tid := by
  obtain ⟨c, hc, hid⟩ := h
  cases bn with
  | none => exact ⟨c, hc, hid⟩
  | some n =>
    refine ⟨if c.id = tid then { c with name := n } else c, ?_, ?_⟩
    · simp only [applyBestName, List.mem_map]
      exact ⟨c, hc, rfl⟩
    · rw [if_pos hid]
      exact hid

theorem applyBestName_name_some (db : DB) (tid : Nat) (n : String) (c2 : ChatRowDB)
    (h : c2 ∈ (applyBestName db tid (some n)).chats) (hid : c2.id = tid) :
    c2.name = n := by
  simp only [applyBestName, List.mem_map] at h
  obtain ⟨c, hc, rfl⟩ := h
  by_cases hc2 : c.id = tid
  · rw [if_pos hc2]
  · rw [if_neg hc2] at hid ⊢
    exact absurd hid hc2

theorem mergeInsertAll_chats (targetId : Nat) (ms : List StoredMessage) :
    ∀ db mv sk, (mergeInsertAll db targetId ms mv sk).1.chats = db.chats := by
  induction ms with
  | nil => intro db mv sk; rfl
  | cons m rest ih =>
    intro db mv sk
    by_cases hins : (insertMessage db targetId m.author m.content m.timestamp
        m.type m.mediaPath).2 = true
    · have hstep : mergeInsertAll db targetId (m :: rest) mv sk =
          mergeInsertAll (insertMessage db targetId m.author m.content m.timestamp
            m.type m.mediaPath).1 targetId rest (mv + 1) sk := by
        simp only [mergeInsertAll, hins, if_true]
      rw [hstep, ih, insertMessage_chats]
    · have hinsf : (insertMessage db targetId m.author m.content m.timestamp
          m.type m.mediaPath).2 = false := by simpa using hins
      have hstep : mergeInsertAll db targetId (m :: rest) mv sk =
          mergeInsertAll (insertMessage db targetId m.author m.content m.timestamp
            m.type m.mediaPath).1 targetId rest mv (sk + 1) := by
        simp only [mergeInsertAll, hinsf, Bool.false_eq_true, if_false]
      rw [hstep, ih, insertMessage_chats]

theorem mergeMoveLoop_chats_sub (targetId : Nat) :
    ∀ (srcs : List Nat) (db : DB) (mv sk : Nat),
      ∀ c ∈ (mergeMoveLoop db targetId srcs mv sk).1.chats, c ∈ db.chats := by
  intro srcs
  induction srcs with
  | nil => intro db mv sk c hc; exact hc
  | cons s rest ih =>
    intro db mv sk c hc
    have hc2 := ih _ _ _ c hc
    rw [deleteChat_chats_mem] at hc2
    have := hc2.1
    rw [mergeInsertAll_chats] at this
    exact this

theorem merge_owned_target (db : DB) (uid : Nat) (ids : List Nat)
    (hwf : (db.chats.map (·.id)).Nodup) (hnd : ids.Nodup)
    (hlen : (mergeOwnedChats db uid ids).length = ids.length) :
    ∀ t ∈ ids, ∃ c ∈ db.chats, c.id = t := by
  have hsub : ((mergeOwnedChats db uid ids).map (·.id)) ⊆ ids := by
    intro x hx
    rw [List.mem_map] at hx
    obtain ⟨c, hc, rfl⟩ := hx
    have h2 := (List.mem_filter.1 hc).2
    rw [Bool.and_eq_true] at h2
    simpa using h2.2
  have hndo : ((mergeOwnedChats db uid ids).map (·.id)).Nodup := by
    have hsl : (mergeOwnedChats db uid ids).Sublist db.chats := List.filter_sublist _
    exact List.Sublist.nodup (hsl.map _) hwf
  have hperm : ((mergeOwnedChats db uid ids).map (·.id)).Perm ids :=
    (List.subperm_of_subset hndo hsub).perm_of_length_le (by simp [hlen])
  intro t ht
  have hmem : t ∈ (mergeOwnedChats db uid ids).map (·.id) := hperm.mem_iff.2 ht
  rw [List.mem_map] at hmem
  obtain ⟨c, hc, hcid⟩ := hmem
  exact ⟨c, (List.mem_filter.1 hc).1, hcid⟩

/-- C6: a successful merge selects as target the supplied chat with the
greatest message count, ties broken by supply order (every id before the
target has strictly fewer messages); it reports every other supplied id
deleted, deletes exactly those chats, keeps the target, and the target's
final message count plus the skipped duplicates equals the sum of all
supplied chats' message counts. -/
theorem merge_target_spec (db db' : DB) (uid : Nat) (ids : List Nat) (t mv sk : Nat)
    (del : List Nat) (hnd : ids.Nodup) (h0 : 0 ∉ ids)
    (hwf : (db.chats.map (·.id)).Nodup)
    (h : mergeChats db uid ids = (db', .ok t mv sk del)) :
    (∃ l1 l2, ids = l1 ++ t :: l2 ∧ (∀ j ∈ ids, msgCount db j ≤ msgCount db t) ∧
      ∀ i ∈ l1, msgCount db i < msgCount db t) ∧
    del = ids.filter (fun i => i != t) ∧
    (∀ c ∈ db'.chats, c.id ∈ ids → c.id = t) ∧
    (∃ c ∈ db'.chats, c.id = t) ∧
    msgCount db' t + sk = (ids.map fun i => msgCount db i).sum := by
  have hfilt : ids.filter (fun i => i != 0) = ids := by
    apply List.filter_eq_self.2
    intro a ha
    have hne : a ≠ 0 := fun he => h0 (he ▸ ha)
    simpa [bne_iff_ne] using hne
  have hdedup : jsSetDedup ids = ids := jsSetDedup_of_nodup ids hnd
  simp only [mergeChats, hfilt, hdedup] at h
  split at h
  · exact absurd (congrArg Prod.snd h) (by simp)
  split at h
  · exact absurd (congrArg Prod.snd h) (by simp)
  rename_i hlen2 hown
  have hids_ne : ids ≠ [] := by
    intro he
    rw [he] at hlen2
    simp at hlen2
  obtain ⟨p, hp⟩ : ∃ p, firstMaxSel (ids.map fun cid => (cid, msgCount db cid)) = some p := by
    cases hids : ids with
    | nil => exact absurd hids hids_ne
    | cons a as => exact ⟨_, rfl⟩
  obtain ⟨u, v⟩ := p
  have hchar := firstMaxSel_map_spec (fun i => msgCount db i) ids u v hp
  have hhead : (List.insertionSort (fun a b : Nat × Nat => b.2 ≤ a.2)
      (ids.map fun cid => (cid, msgCount db cid))).headD (0, 0) = (u, v) := by
    have hh := insertionSort_head (ids.map fun cid => (cid, msgCount db cid))
    rw [hp] at hh
    cases hs : List.insertionSort (fun a b : Nat × Nat => b.2 ≤ a.2)
        (ids.map fun cid => (cid, msgCount db cid)) with
    | nil => rw [hs] at hh; exact absurd hh.symm (by simp)
    | cons z zs =>
      rw [hs] at hh
      simp only [List.head?_cons, Option.some.injEq] at hh
      simp [List.headD, hh]
  rw [hhead] at h
  rw [Prod.mk.injEq, MergeOutcome.ok.injEq] at h
  obtain ⟨hdb, ht, hmv, hsk, hdel⟩ := h
  have ht2 : u = t := ht
  subst ht2
  obtain ⟨hv, hmax, l1, l2, hsplit, hlt⟩ := hchar
  have htmem : u ∈ ids := by
    rw [hsplit]
    exact List.mem_append_right _ (List.mem_cons_self _ _)
  have hsrc_nodup : (ids.filter fun i => i != u).Nodup := hnd.filter _
  have hsrc_nt : u ∉ ids.filter fun i => i != u := by
    intro hmem
    have := (List.mem_filter.1 hmem).2
    simp at this
  obtain ⟨a, b, hm1, hm2, hm3, hm4, hm5, hm6⟩ :=
    mergeMoveLoop_spec u (ids.filter fun i => i != u)
      (mergeParticipants (applyBestName db u
        (((mergeOwnedChats db uid ids).find? fun c => mergeNameUsable c.name).map (·.name)))
        u (ids.filter fun i => i != u)) 0 0 hsrc_nt hsrc_nodup
  have hdbm : (mergeParticipants (applyBestName db u
      (((mergeOwnedChats db uid ids).find? fun c => mergeNameUsable c.name).map (·.name)))
      u (ids.filter fun i => i != u)).messages = db.messages := by
    rw [(mergeParticipants_fields u _ _).2, applyBestName_messages]
  have hcnt : ∀ cid, msgCount (mergeParticipants (applyBestName db u
      (((mergeOwnedChats db uid ids).find? fun c => mergeNameUsable c.name).map (·.name)))
      u (ids.filter fun i => i != u)) cid = msgCount db cid :=
    fun cid => msgCount_eq_of_messages hdbm cid
  refine ⟨⟨l1, l2, hsplit, hmax, hlt⟩, hdel.symm, ?_, ?_, ?_⟩
  · intro c hc hcin
    rw [← hdb] at hc
    obtain ⟨_, hnotin⟩ := (hm5 c).1 hc
    by_contra hne
    exact hnotin (List.mem_filter.2 ⟨hcin, by simpa [bne_iff_ne] using hne⟩)
  · have howned : (mergeOwnedChats db uid ids).length = ids.length := not_ne_iff.1 hown
    obtain ⟨c0, hc0, hc0id⟩ := merge_owned_target db uid ids hwf hnd howned u htmem
    obtain ⟨c1, hc1, hc1id⟩ := applyBestName_mem_target db u
      (((mergeOwnedChats db uid ids).find? fun c => mergeNameUsable c.name).map (·.name))
      ⟨c0, hc0, hc0id⟩
    have hc1p : c1 ∈ (mergeParticipants (applyBestName db u
        (((mergeOwnedChats db uid ids).find? fun c => mergeNameUsable c.name).map (·.name)))
        u (ids.filter fun i => i != u)).chats := by
      rw [(mergeParticipants_fields u _ _).1]
      exact hc1
    refine ⟨c1, ?_, hc1id⟩
    rw [← hdb]
    exact (hm5 c1).2 ⟨hc1p, by rw [hc1id]; exact hsrc_nt⟩
  · have e1 : msgCount db' u = msgCount db u + a := by
      rw [← hdb, hm4, hcnt]
    have e2 : sk = 0 + b := by rw [← hsk, hm2]
    have e3 : a + b = ((ids.filter fun i => i != u).map fun i => msgCount db i).sum := by
      rw [hm3]
      congr 1
      exact List.map_congr_left fun s2 _ => hcnt s2
    have e4 : (ids.map fun i => msgCount db i).sum =
        msgCount db u + ((ids.filter fun i => i != u).map fun i => msgCount db i).sum :=
      sum_split_first (fun i => msgCount db i) ids hnd u htmem
    omega

/-- Closed instance of C6 on the three-chat merge `[1(1 msg), 2(2 msgs),
3(0 msgs)]`: target 2, chats 1 and 3 deleted, one duplicate skipped, and
`2 + 1 = 1 + 2 + 0`. -/
theorem merge_target_spec_witness :
    (∃ l1 l2, ([1, 2, 3] : List Nat) = l1 ++ 2 :: l2 ∧
      (∀ j ∈ ([1, 2, 3] : List Nat), msgCount threeChatDB j ≤ msgCount threeChatDB 2) ∧
      ∀ i ∈ l1, msgCount threeChatDB i < msgCount threeChatDB 2) ∧
    ([1, 3] : List Nat) = ([1, 2, 3] : List Nat).filter (fun i => i != 2) ∧
    (∀ c ∈ mergeDemoRun.1.chats, c.id ∈ ([1, 2, 3] : List Nat) → c.id = 2) ∧
    (∃ c ∈ mergeDemoRun.1.chats, c.id = 2) ∧
    msgCount mergeDemoRun.1 2 + 1 =
      (([1, 2, 3] : List Nat).map fun i => msgCount threeChatDB i).sum :=
  merge_target_spec threeChatDB mergeDemoRun.1 7 [1, 2, 3] 2 0 1 [1, 3]
    (by decide) (by decide) (by decide) rfl

/-- C7 as amended: the merged chat's name is the first usable name among
the candidate rows in the order the ownership query returns them (the
table's row order); when no candidate name is usable the target keeps its
stored name. -/
theorem merge_name_row_order (db db' : DB) (uid : Nat) (ids : List Nat)
    (t mv sk : Nat) (del : List Nat)
    (h : mergeChats db uid ids = (db', .ok t mv sk del)) :
    (∀ n, (((mergeOwnedChats db uid (jsSetDedup (ids.filter fun i => i != 0))).find?
        fun c => mergeNameUsable c.name).map (·.name)) = some n →
      ∀ c2 ∈ db'.chats, c2.id = t → c2.name = n) ∧
    ((((mergeOwnedChats db uid (jsSetDedup (ids.filter fun i => i != 0))).find?
        fun c => mergeNameUsable c.name).map (·.name)) = none →
      ∀ c2 ∈ db'.chats, c2.id = t → ∃ c ∈ db.chats, c.id = t ∧ c2.name = c.name) := by
  simp only [mergeChats] at h
  split at h
  · exact absurd (congrArg Prod.snd h) (by simp)
  split at h
  · exact absurd (congrArg Prod.snd h) (by simp)
  rw [Prod.mk.injEq, MergeOutcome.ok.injEq] at h
  obtain ⟨hdb, ht, hmv2, hsk2, hdel2⟩ := h
  constructor
  · intro n hn c2 hc2 hcid
    rw [← hdb] at hc2
    have hc2b := mergeMoveLoop_chats_sub _ _ _ _ _ c2 hc2
    rw [(mergeParticipants_fields _ _ _).1] at hc2b
    rw [hn] at hc2b
    exact applyBestName_name_some db _ n c2 hc2b (hcid.trans ht.symm)
  · intro hn c2 hc2 hcid
    rw [← hdb] at hc2
    have hc2b := mergeMoveLoop_chats_sub _ _ _ _ _ c2 hc2
    rw [(mergeParticipants_fields _ _ _).1] at hc2b
    rw [hn] at hc2b
    exact ⟨c2, hc2b, hcid, rfl⟩

/-- C7 counterexample: merging `[2, 1]` where the table's row order is
chat 1 ("Alpha") then chat 2 ("Beta") names the merged chat "Alpha" —
the first non-generic name in database row order — while the claim's
supplied-order reading predicts "Beta". -/
theorem merge_name_order_cex :
    ((nameDemoRun.1.chats.find? fun c => c.id == 2).map (·.name)) = some "Alpha" ∧
    claimFirstSuppliedName twoChatDB [2, 1] = some "Beta" ∧
    some "Alpha" ≠ (some "Beta" : Option String) := by
  refine ⟨by decide, by decide, by decide⟩

/-- Closed instance of C7's amended row-order rule on the two-chat
merge. -/
theorem merge_name_row_order_witness :
    (⟨2, 7, "Alpha"⟩ : ChatRowDB).name = "Alpha" :=
  (merge_name_row_order twoChatDB nameDemoRun.1 7 [2, 1] 2 0 0 [1] rfl).1 "Alpha" rfl
    ⟨2, 7, "Alpha"⟩ (by decide) rfl

end ChatImport
